import Mathlib

/-!
# Raja Mantri Chor Sipahi — verification of the room/game manager

A shallow embedding of the server core of the Raja-Mantri-Chor-Sipahi
repository (`src/server/src/lib/roomManager.js`, `src/server/src/lib/gameManager.js`
and the socket facade `src/server/src/index.js`) together with proofs of the
specification claims about it.

Modelling conventions:
* JavaScript `Map` objects are embedded as insertion-ordered association
  lists with `Map.get` / `Map.set` / `Map.delete` counterparts (`mapGet`,
  `mapSet`, `mapDel`).  `Map.set` updates an existing binding in place and
  appends a fresh one, as ECMAScript specifies.
* Player ids are opaque strings in the source; they are embedded as `Nat`.
* `Date.now()` is passed in explicitly as a `now : Nat` argument wherever the
  source reads the clock.
* Timers (`setTimeout` / `setInterval`) cannot fire inside a pure function;
  an operation that only *schedules* a timer leaves the state unchanged, and
  the timer's callback (`actuallyStartGame`, `handleRoundTimeout`,
  `actuallyStartNextRound`) is modelled as a separate transition of the
  system step relation.
* `Math.random()` driving the Fisher–Yates shuffle is embedded as an explicit
  list of drawn indices `js`, where the `k`-th entry plays the role of
  `Math.floor(Math.random() * (i + 1))` for the loop index `i = 3 - k`.
-/

namespace RMCS

/-- The four role cards (`this.cards = ['Raja', 'Mantri', 'Chor', 'Sipahi']`). -/
inductive Card where
  | Raja
  | Mantri
  | Chor
  | Sipahi
deriving DecidableEq, Repr, Fintype

abbrev PlayerId := Nat

/-- `Map.get`: the value bound to `k`, if any (first binding wins). -/
def mapGet {α β : Type} [DecidableEq α] : List (α × β) → α → Option β
  | [], _ => none
  | (k0, v0) :: rest, k => if k0 = k then some v0 else mapGet rest k

/-- `Map.set`: update the existing binding for `k` in place, else append. -/
def mapSet {α β : Type} [DecidableEq α] : List (α × β) → α → β → List (α × β)
  | [], k, v => [(k, v)]
  | (k0, v0) :: rest, k, v =>
    if k0 = k then (k0, v) :: rest else (k0, v0) :: mapSet rest k v

/-- `Map.delete`: remove the binding for `k` (keys are unique in a `Map`). -/
def mapDel {α β : Type} [DecidableEq α] : List (α × β) → α → List (α × β)
  | [], _ => []
  | (k0, v0) :: rest, k =>
    if k0 = k then rest else (k0, v0) :: mapDel rest k

/-- Keys of an association list. -/
def keysOf {α β : Type} (l : List (α × β)) : List α := l.map Prod.fst

/-- Per-card score for one round: the `switch` inside `calculateRoundScores`. -/
def cardScore (card : Card) (isCorrect : Bool) : Nat :=
  match card with
  | .Raja => 1000
  | .Mantri => if isCorrect then 800 else 0
  | .Chor => if isCorrect then 0 else 800
  | .Sipahi => 500

/-- `GameManager.calculateRoundScores`: build the per-player round score map
from the current card assignment and the correctness flag. -/
def calculateRoundScores (currentCards : List (PlayerId × Card)) (isCorrect : Bool) :
    List (PlayerId × Nat) :=
  currentCards.map (fun pc => (pc.1, cardScore pc.2 isCorrect))

-- ### Association list lemmas

theorem mapGet_mapSet_self {α β : Type} [DecidableEq α] (l : List (α × β)) (k : α) (v : β) :
    mapGet (mapSet l k v) k = some v := by
  induction l with
  | nil => simp [mapGet, mapSet]
  | cons hd tl ih =>
    obtain ⟨a, b⟩ := hd
    by_cases h : a = k <;> simp [mapGet, mapSet, h, ih]

theorem mapGet_mapSet_ne {α β : Type} [DecidableEq α] (l : List (α × β)) (k k' : α) (v : β)
    (h : k ≠ k') : mapGet (mapSet l k v) k' = mapGet l k' := by
  induction l with
  | nil => simp [mapGet, mapSet, h]
  | cons hd tl ih =>
    obtain ⟨a, b⟩ := hd
    by_cases h0 : a = k
    · subst h0
      simp [mapGet, mapSet, h]
    · simp [mapGet, mapSet, h0, ih]

theorem mapGet_mapDel_ne {α β : Type} [DecidableEq α] (l : List (α × β)) (k k' : α)
    (h : k ≠ k') : mapGet (mapDel l k) k' = mapGet l k' := by
  induction l with
  | nil => simp [mapGet, mapDel]
  | cons hd tl ih =>
    obtain ⟨a, b⟩ := hd
    by_cases h0 : a = k
    · subst h0
      simp [mapGet, mapDel, h]
    · simp [mapGet, mapDel, h0, ih]

theorem mapGet_eq_none_iff {α β : Type} [DecidableEq α] (l : List (α × β)) (k : α) :
    mapGet l k = none ↔ k ∉ keysOf l := by
  induction l with
  | nil => simp [mapGet, keysOf]
  | cons hd tl ih =>
    obtain ⟨a, b⟩ := hd
    by_cases h0 : a = k
    · subst h0
      simp [mapGet, keysOf]
    · have hka : k ≠ a := fun he => h0 he.symm
      simp [mapGet, keysOf, h0, hka, ih]

theorem mapGet_mapDel_self {α β : Type} [DecidableEq α] (l : List (α × β)) (k : α)
    (h : (keysOf l).Nodup) : mapGet (mapDel l k) k = none := by
  induction l with
  | nil => simp [mapGet, mapDel]
  | cons hd tl ih =>
    obtain ⟨a, b⟩ := hd
    simp only [keysOf, List.map_cons, List.nodup_cons] at h
    by_cases h0 : a = k
    · subst h0
      simp only [mapDel, if_pos rfl]
      rw [mapGet_eq_none_iff]
      exact h.1
    · simp only [mapDel, if_neg h0, mapGet, if_neg h0]
      exact ih h.2

theorem mem_of_mapGet_eq_some {α β : Type} [DecidableEq α] {l : List (α × β)} {k : α} {v : β}
    (h : mapGet l k = some v) : (k, v) ∈ l := by
  induction l with
  | nil => simp [mapGet] at h
  | cons hd tl ih =>
    obtain ⟨a, b⟩ := hd
    by_cases h0 : a = k
    · subst h0
      simp only [mapGet, if_pos rfl] at h
      obtain rfl : b = v := Option.some.inj h
      exact List.mem_cons_self _ _
    · simp only [mapGet, if_neg h0] at h
      exact List.mem_cons_of_mem _ (ih h)

theorem mapGet_eq_some_of_mem {α β : Type} [DecidableEq α] {l : List (α × β)} {k : α} {v : β}
    (hnd : (keysOf l).Nodup) (h : (k, v) ∈ l) : mapGet l k = some v := by
  induction l with
  | nil => simp at h
  | cons hd tl ih =>
    simp only [keysOf, List.map_cons, List.nodup_cons] at hnd
    rcases List.mem_cons.mp h with h1 | h1
    · subst h1
      simp [mapGet]
    · have hk : hd.1 ≠ k := by
        intro he
        exact hnd.1 (he ▸ (List.mem_map.mpr ⟨(k, v), h1, rfl⟩))
      simp only [mapGet, if_neg hk]
      exact ih hnd.2 h1

theorem mapGet_isSome_iff {α β : Type} [DecidableEq α] (l : List (α × β)) (k : α) :
    (mapGet l k).isSome ↔ k ∈ keysOf l := by
  rcases hm : mapGet l k with _ | v
  · simpa using (mapGet_eq_none_iff l k).mp hm
  · simp only [Option.isSome_some, true_iff]
    exact List.mem_map.mpr ⟨(k, v), mem_of_mapGet_eq_some hm, rfl⟩

theorem keysOf_mapSet {α β : Type} [DecidableEq α] (l : List (α × β)) (k : α) (v : β) :
    keysOf (mapSet l k v) = if k ∈ keysOf l then keysOf l else keysOf l ++ [k] := by
  induction l with
  | nil => simp [mapSet, keysOf]
  | cons hd tl ih =>
    obtain ⟨a, b⟩ := hd
    by_cases h0 : a = k
    · subst h0
      simp [mapSet, keysOf]
    · have hka : ¬(k = a) := fun he => h0 he.symm
      have hstep : keysOf (mapSet ((a, b) :: tl) k v) = a :: keysOf (mapSet tl k v) := by
        simp [mapSet, if_neg h0, keysOf]
      rw [hstep, ih]
      by_cases hm : k ∈ keysOf tl
      · have hmem : k ∈ keysOf ((a, b) :: tl) := List.mem_cons_of_mem _ hm
        rw [if_pos hm, if_pos hmem]
        simp [keysOf]
      · have hnot : k ∉ keysOf ((a, b) :: tl) := by
          intro hc
          rcases List.mem_cons.mp hc with hc | hc
          · exact hka hc
          · exact hm hc
        rw [if_neg hm, if_neg hnot]
        simp [keysOf]

theorem nodup_keysOf_mapSet {α β : Type} [DecidableEq α] (l : List (α × β)) (k : α) (v : β)
    (h : (keysOf l).Nodup) : (keysOf (mapSet l k v)).Nodup := by
  rw [keysOf_mapSet]
  by_cases hm : k ∈ keysOf l
  · simpa [hm] using h
  · rw [if_neg hm]
    refine List.Nodup.append h (List.nodup_singleton k) ?_
    intro a ha hb
    rw [List.mem_singleton] at hb
    exact hm (hb ▸ ha)

theorem keysOf_mapDel_sublist {α β : Type} [DecidableEq α] (l : List (α × β)) (k : α) :
    (keysOf (mapDel l k)).Sublist (keysOf l) := by
  induction l with
  | nil => simp [mapDel, keysOf]
  | cons hd tl ih =>
    obtain ⟨a, b⟩ := hd
    by_cases h0 : a = k
    · simp only [mapDel, if_pos h0, keysOf, List.map_cons]
      exact List.sublist_cons_self _ _
    · simp only [mapDel, if_neg h0, keysOf, List.map_cons]
      exact ih.cons₂ _

theorem nodup_keysOf_mapDel {α β : Type} [DecidableEq α] (l : List (α × β)) (k : α)
    (h : (keysOf l).Nodup) : (keysOf (mapDel l k)).Nodup :=
  (keysOf_mapDel_sublist l k).nodup h

-- ### C1: round scoring

theorem calculateRoundScores_mem (cards : List (PlayerId × Card)) (b : Bool)
    {pid : PlayerId} {c : Card} (h : (pid, c) ∈ cards) :
    (pid, cardScore c b) ∈ calculateRoundScores cards b := by
  exact List.mem_map.mpr ⟨(pid, c), h, rfl⟩

/-- **C1.** `calculateRoundScores` is a pure function of the card mapping and the
correctness flag (it is literally a Lean function of those two arguments).  Every
player holding `Raja` scores 1000 and every holder of `Sipahi` scores 500,
regardless of correctness; the `Mantri` holder scores 800 iff the guess was
correct, the `Chor` holder scores 800 iff it was not; and whenever the card
mapping assigns all four distinct roles, the four round scores sum to 2300 for
either value of `isCorrect`. -/
theorem claim_C1_calculateRoundScores (cards : List (PlayerId × Card)) (b : Bool) :
    (∀ pid c, (pid, c) ∈ cards →
      (pid, cardScore c b) ∈ calculateRoundScores cards b) ∧
    (∀ pid, (pid, Card.Raja) ∈ cards → (pid, 1000) ∈ calculateRoundScores cards b) ∧
    (∀ pid, (pid, Card.Sipahi) ∈ cards → (pid, 500) ∈ calculateRoundScores cards b) ∧
    (∀ pid, (pid, Card.Mantri) ∈ cards →
      (pid, if b then 800 else 0) ∈ calculateRoundScores cards b) ∧
    (∀ pid, (pid, Card.Chor) ∈ cards →
      (pid, if b then 0 else 800) ∈ calculateRoundScores cards b) ∧
    ((cards.map Prod.snd).Perm [Card.Raja, Card.Mantri, Card.Chor, Card.Sipahi] →
      ((calculateRoundScores cards b).map Prod.snd).sum = 2300) := by
  refine ⟨fun pid c h => calculateRoundScores_mem cards b h,
    fun pid h => calculateRoundScores_mem cards b h,
    fun pid h => calculateRoundScores_mem cards b h,
    fun pid h => calculateRoundScores_mem cards b h,
    fun pid h => calculateRoundScores_mem cards b h, ?_⟩
  intro hperm
  have hmap : (calculateRoundScores cards b).map Prod.snd
      = (cards.map Prod.snd).map (fun c => cardScore c b) := by
    simp [calculateRoundScores, List.map_map]
  rw [hmap, (hperm.map (fun c => cardScore c b)).sum_eq]
  cases b <;> simp [cardScore]

/-- Witness for C1 at a concrete four-role assignment. -/
theorem claim_C1_witness :
    (∀ pid c, (pid, c) ∈ [(1, Card.Raja), (2, Card.Mantri), (3, Card.Chor), (4, Card.Sipahi)] →
      (pid, cardScore c true) ∈
        calculateRoundScores [(1, Card.Raja), (2, Card.Mantri), (3, Card.Chor), (4, Card.Sipahi)]
          true) ∧
    (([(1, Card.Raja), (2, Card.Mantri), (3, Card.Chor), (4, Card.Sipahi)].map Prod.snd).Perm
        [Card.Raja, Card.Mantri, Card.Chor, Card.Sipahi] →
      ((calculateRoundScores
          [(1, Card.Raja), (2, Card.Mantri), (3, Card.Chor), (4, Card.Sipahi)] true).map
          Prod.snd).sum = 2300) := by
  have h := claim_C1_calculateRoundScores
    [(1, Card.Raja), (2, Card.Mantri), (3, Card.Chor), (4, Card.Sipahi)] true
  exact ⟨h.1, h.2.2.2.2.2⟩

-- ### Data model

/-- Error outcomes: one constructor per distinct `throw new Error(...)` message
in the source (room manager, game manager and the socket facade). -/
inductive GErr where
  | AlreadyPlaying      -- "Game is already in progress"
  | WrongPlayerCount    -- "Exactly 4 players are required to start the game"
  | NotInProgress       -- "Game is not in progress"
  | NotMantri           -- "Only the Mantri can make guesses"
  | InvalidTarget       -- "Guessed player not found in room"
  | SelfGuess           -- "Mantri cannot guess themselves"
  | PlayerNotFound      -- "Player not found in room"
  | NotInRoom           -- "You are not in any room"
  | RoomNotFound        -- "Room not found"
  | AlreadyInThisRoom   -- "You are already in this room"
  | AlreadyInOtherRoom  -- "You are already in another room. Leave it first."
  | AlreadyInRoomAtCreate -- "You are already in a room. Leave your current room first."
  | ServerFull          -- "Server is at capacity. Please try again later."
  | RoomIdExists        -- "Room ID already exists"
  | WrongPassword       -- "Incorrect room password"
  | RoomFull            -- "Room is full"
  | DuplicatePlayer     -- "Player already in room"
  | DuplicateName       -- "Player name already taken in this room"
  | InvalidName         -- "Invalid player name" / "Player name cannot be empty"
  | MissingFields       -- "... are required"
  | CreatorRequired     -- "Only the room creator can start the game / next round"
  | NoGame              -- TypeError raised by `room.game.<op>` when `room.game` is null
deriving DecidableEq, Repr

/-- `Player` (roomManager.js).  `totalScore` is never read or written after
construction and is omitted. -/
structure Player where
  id : PlayerId
  name : String
  isCreator : Bool
  joinedAt : Nat
  gamesPlayed : Nat
deriving DecidableEq, Repr

/-- `Player.sanitizeName`: trim, truncate to 20 characters, reject empty
names, strip `<` and `>`.  `none` models the two `throw`s. -/
def sanitizeName (name : String) : Option String :=
  if name = "" then none  -- `!name` guard
  else
    let sanitized := (name.trim.take 20 : String)
    if sanitized.length = 0 then none
    else some ((sanitized.replace "<" "").replace ">" "")

/-- `new Player(id, name, isCreator)` at time `now`. -/
def mkPlayer (id : PlayerId) (name : String) (isCreator : Bool) (now : Nat) : Option Player :=
  (sanitizeName name).map (fun n => ⟨id, n, isCreator, now, 0⟩)

/-- `GameManager.state` values. -/
inductive GState where
  | waiting
  | playing
  | finished
deriving DecidableEq, Repr

/-- `Room.state` values (the source comment lists `waiting, ready, playing,
finished`; `ready` is never assigned). -/
inductive RState where
  | waiting
  | ready
  | playing
  | finished
deriving DecidableEq, Repr

/-- One entry of `roundHistory`. -/
structure RoundResult where
  round : Nat
  mantriId : Option PlayerId
  guessedPlayerId : Option PlayerId
  actualChorId : Option PlayerId
  isCorrect : Bool
  timedOut : Bool
  scores : List (PlayerId × Nat)
  cards : List (PlayerId × Card)
  timestamp : Nat
  roundDuration : Nat
deriving DecidableEq, Repr

/-- The state-bearing fields of a `GameManager` (timer ids and the timer
countdown mirrors are scheduling bookkeeping, not game state, and are not
embedded; the `room` back-reference is passed explicitly to each operation). -/
structure GameSession where
  state : GState
  currentRound : Nat
  maxRounds : Nat
  currentCards : List (PlayerId × Card)
  scores : List (PlayerId × Nat)
  roundHistory : List RoundResult
  rajaPlayer : Option PlayerId
  mantriPlayer : Option PlayerId
  chorPlayer : Option PlayerId
  sipahiPlayer : Option PlayerId
  playAgainResponses : List (PlayerId × Bool)
  gameStartTime : Option Nat
  gameEndTime : Option Nat
  roundStartTime : Option Nat
deriving DecidableEq, Repr

/-- `Room` (roomManager.js).  The sha256 digest of the password is abstracted
as the password string itself: no claim depends on the hash function, only on
the verification comparing stored digest against digest of the attempt. -/
structure Room where
  roomId : Nat
  password : Option String
  creatorId : PlayerId
  players : List Player
  maxPlayers : Nat
  createdAt : Nat
  lastActivity : Nat
  state : RState
  game : Option GameSession
deriving DecidableEq, Repr

def Room.hasPlayer (room : Room) (pid : PlayerId) : Bool :=
  room.players.any (fun p => p.id = pid)

def Room.getPlayer (room : Room) (pid : PlayerId) : Option Player :=
  room.players.find? (fun p => p.id = pid)

def Room.isCreator (room : Room) (pid : PlayerId) : Bool :=
  room.creatorId = pid

def Room.updateActivity (room : Room) (now : Nat) : Room :=
  { room with lastActivity := now }

def Room.isEmpty (room : Room) : Bool :=
  room.players.length = 0

def Room.isFull (room : Room) : Bool :=
  room.players.length ≥ room.maxPlayers

/-- `Room.verifyPassword`.  A `null` attempt against a password-protected room
makes `crypto.update(null)` throw in the source, surfacing as a failure of the
join; modelled as verification returning `false`. -/
def Room.verifyPassword (room : Room) (attempt : Option String) : Bool :=
  match room.password with
  | none => true
  | some stored =>
    match attempt with
    | none => false
    | some a => stored = a

/-- `Room.addPlayer`: capacity check, duplicate-id check, case-insensitive
duplicate-name check, then push. -/
def Room.addPlayer (room : Room) (p : Player) (now : Nat) : Except GErr Room :=
  if room.players.length ≥ room.maxPlayers then .error .RoomFull
  else if room.hasPlayer p.id then .error .DuplicatePlayer
  else if room.players.any (fun q => q.name.toLower = p.name.toLower) then .error .DuplicateName
  else .ok { room with players := room.players ++ [p], lastActivity := now }

/-- `Room.removePlayer`: splice out the first player with the given id. -/
def Room.removePlayer (room : Room) (pid : PlayerId) (now : Nat) : Except GErr (Player × Room) :=
  match room.getPlayer pid with
  | none => .error .PlayerNotFound
  | some p =>
    .ok (p, { room with players := room.players.eraseP (fun q => q.id = pid),
                        lastActivity := now })

/-- Clear the `isCreator` flag of the first flagged player
(`players.find(p => p.isCreator)` followed by the in-place mutation). -/
def clearFirstCreator : List Player → List Player
  | [] => []
  | p :: ps => if p.isCreator then { p with isCreator := false } :: ps
               else p :: clearFirstCreator ps

/-- Set the `isCreator` flag of the first player with the given id
(`getPlayer` followed by the in-place mutation). -/
def setCreatorFirst (cid : PlayerId) : List Player → List Player
  | [] => []
  | p :: ps => if p.id = cid then { p with isCreator := true } :: ps
               else p :: setCreatorFirst cid ps

/-- `Room.transferOwnership`. -/
def Room.transferOwnership (room : Room) (newCid : PlayerId) (now : Nat) : Except GErr Room :=
  match room.getPlayer newCid with
  | none => .error .PlayerNotFound
  | some _ =>
    .ok { room with players := setCreatorFirst newCid (clearFirstCreator room.players),
                    creatorId := newCid,
                    lastActivity := now }

/-- The `Room` constructor: fields, then `addPlayer(new Player(creatorId,
creatorName, true))`.  `maxPlayers` of `0` models a falsy `options.maxPlayers`
(defaulted to 4). -/
def mkRoom (roomId : Nat) (password : Option String) (creatorId : PlayerId)
    (creatorName : String) (maxPlayers : Nat) (now : Nat) : Except GErr Room :=
  match mkPlayer creatorId creatorName true now with
  | none => .error .InvalidName
  | some creator =>
    let base : Room :=
      { roomId := roomId
        password := password
        creatorId := creatorId
        players := []
        maxPlayers := if maxPlayers = 0 then 4 else maxPlayers
        createdAt := now
        lastActivity := now
        state := .waiting
        game := none }
    base.addPlayer creator now

/-- The fields of the `RoomManager` singleton relevant to room/game state
(rate limiting and the cleanup interval handle are scheduling bookkeeping). -/
structure RoomManager where
  rooms : List (Nat × Room)
  playerToRoom : List (PlayerId × Nat)
  maxRooms : Nat
deriving DecidableEq, Repr

/-- The freshly constructed singleton. -/
def initRM : RoomManager := { rooms := [], playerToRoom := [], maxRooms := 100 }

-- ### GameManager operations

/-- `GameManager.initializeScores`: set every room member's score to 0. -/
def initializeScores (players : List Player) (scores : List (PlayerId × Nat)) :
    List (PlayerId × Nat) :=
  players.foldl (fun acc p => mapSet acc p.id 0) scores

/-- `new GameManager(room)`: the initial session state. -/
def GameSession.init (room : Room) : GameSession :=
  { state := .waiting
    currentRound := 0
    maxRounds := 5
    currentCards := []
    scores := initializeScores room.players []
    roundHistory := []
    rajaPlayer := none
    mantriPlayer := none
    chorPlayer := none
    sipahiPlayer := none
    playAgainResponses := []
    gameStartTime := none
    gameEndTime := none
    roundStartTime := none }

/-- `GameManager.startGame`: the two validations.  On success the source only
schedules the 5-second countdown (`startGameStartCountdown`); no state field
changes until the countdown timer fires (`actuallyStartGame`). -/
def startGame (g : GameSession) (room : Room) : Option GErr × GameSession :=
  if g.state = .playing then (some .AlreadyPlaying, g)
  else if room.players.length ≠ 4 then (some .WrongPlayerCount, g)
  else (none, g)

/-- The fixed card array `this.cards`. -/
def CARDS : List Card := [.Raja, .Mantri, .Chor, .Sipahi]

/-- `[arr[i], arr[j]] = [arr[j], arr[i]]`. -/
def listSwap {α : Type} (l : List α) (i j : Nat) : List α :=
  match l[i]?, l[j]? with
  | some a, some b => (l.set i b).set j a
  | _, _ => l

/-- The Fisher–Yates loop body: `i` counts down from `length - 1` to `1`,
consuming one drawn index `j ∈ [0, i]` per iteration. -/
def fyAux {α : Type} : List α → Nat → List Nat → List α
  | arr, _, [] => arr
  | arr, 0, _ :: _ => arr
  | arr, i + 1, j :: js => fyAux (listSwap arr (i + 1) j) i js

/-- The Fisher–Yates shuffle of `distributeCards`, with the stream of values
`Math.floor(Math.random() * (i + 1))` made explicit as `js`. -/
def fisherYates {α : Type} (arr : List α) (js : List Nat) : List α :=
  fyAux arr (arr.length - 1) js

/-- One iteration of the card-assignment `forEach`: `currentCards.set` plus the
special-role `switch`. -/
def applyCardAssign (g : GameSession) (pid : PlayerId) (card : Card) : GameSession :=
  let g1 := { g with currentCards := mapSet g.currentCards pid card }
  match card with
  | .Raja => { g1 with rajaPlayer := some pid }
  | .Mantri => { g1 with mantriPlayer := some pid }
  | .Chor => { g1 with chorPlayer := some pid }
  | .Sipahi => { g1 with sipahiPlayer := some pid }

/-- `GameManager.distributeCards`: clear round state, shuffle a copy of
`CARDS`, assign positionally to the room's players (players beyond the number
of cards receive no assignment, exactly as a 4-card deal to at most 4 players
behaves in the source), then `room.updateActivity()`. -/
def distributeCards (g : GameSession) (room : Room) (js : List Nat) (now : Nat) :
    GameSession × Room :=
  let cleared := { g with currentCards := ([] : List (PlayerId × Card))
                          rajaPlayer := none
                          mantriPlayer := none
                          chorPlayer := none
                          sipahiPlayer := none
                          roundStartTime := some now }
  let shuffled := fisherYates CARDS js
  let playerIds := room.players.map Player.id
  let assigned := (playerIds.zip shuffled).foldl
    (fun acc pc => applyCardAssign acc pc.1 pc.2) cleared
  (assigned, room.updateActivity now)

/-- `GameManager.actuallyStartGame` (the game-start countdown firing). -/
def actuallyStartGame (g : GameSession) (room : Room) (js : List Nat) (now : Nat) :
    GameSession × Room :=
  let g1 := { g with state := GState.playing
                     currentRound := 1
                     gameStartTime := some now
                     gameEndTime := (none : Option Nat)
                     roundHistory := ([] : List RoundResult) }
  let room1 := ({ room with state := RState.playing } : Room).updateActivity now
  distributeCards g1 room1 js now

/-- The `roundScores.forEach` ledger update:
`scores.set(playerId, (scores.get(playerId) || 0) + score)`. -/
def applyRoundScores (scores roundScores : List (PlayerId × Nat)) : List (PlayerId × Nat) :=
  roundScores.foldl (fun acc pr => mapSet acc pr.1 ((mapGet acc pr.1).getD 0 + pr.2)) scores

/-- `GameManager.endGame` (results are computed from the final state by
`getResults`, which is pure). -/
def endGame (g : GameSession) (room : Room) (now : Nat) : GameSession × Room :=
  ({ g with state := GState.finished, gameEndTime := some now },
   ({ room with state := RState.finished } : Room).updateActivity now)

/-- `GameManager.scheduleNextRound`: ends the game at once when the round
budget is exhausted, otherwise only schedules the 5-second next-round
countdown (its firing is `actuallyStartNextRound`). -/
def scheduleNextRound (g : GameSession) (room : Room) (now : Nat) : GameSession × Room :=
  if g.currentRound ≥ g.maxRounds then endGame g room now
  else (g, room)

/-- `GameManager.makeGuess`. -/
def makeGuess (g : GameSession) (room : Room) (mantriId guessedPlayerId : PlayerId)
    (now : Nat) : Option GErr × GameSession × Room :=
  if g.state ≠ .playing then (some .NotInProgress, g, room)
  else if some mantriId ≠ g.mantriPlayer then (some .NotMantri, g, room)
  else if ¬ room.hasPlayer guessedPlayerId then (some .InvalidTarget, g, room)
  else if mantriId = guessedPlayerId then (some .SelfGuess, g, room)
  else
    let isCorrect : Bool := g.chorPlayer = some guessedPlayerId
    let roundScores := calculateRoundScores g.currentCards isCorrect
    let g1 := { g with scores := applyRoundScores g.scores roundScores }
    let rr : RoundResult :=
      { round := g1.currentRound
        mantriId := some mantriId
        guessedPlayerId := some guessedPlayerId
        actualChorId := g1.chorPlayer
        isCorrect := isCorrect
        timedOut := false
        scores := roundScores
        cards := g1.currentCards
        timestamp := now
        roundDuration := now - g1.roundStartTime.getD 0 }
    let g2 := { g1 with roundHistory := g1.roundHistory ++ [rr] }
    let room1 := room.updateActivity now
    let gr := scheduleNextRound g2 room1 now
    (none, gr.1, gr.2)

/-- `GameManager.handleRoundTimeout` (the 30-second round deadline firing). -/
def handleRoundTimeout (g : GameSession) (room : Room) (now : Nat) : GameSession × Room :=
  let roundScores := calculateRoundScores g.currentCards false
  let g1 := { g with scores := applyRoundScores g.scores roundScores }
  let rr : RoundResult :=
    { round := g1.currentRound
      mantriId := g1.mantriPlayer
      guessedPlayerId := none
      actualChorId := g1.chorPlayer
      isCorrect := false
      timedOut := true
      scores := roundScores
      cards := g1.currentCards
      timestamp := now
      roundDuration := now - g1.roundStartTime.getD 0 }
  let g2 := { g1 with roundHistory := g1.roundHistory ++ [rr] }
  scheduleNextRound g2 room now

/-- `GameManager.actuallyStartNextRound` (the next-round countdown firing). -/
def actuallyStartNextRound (g : GameSession) (room : Room) (js : List Nat) (now : Nat) :
    GameSession × Room :=
  let g1 := { g with currentRound := g.currentRound + 1 }
  let gr := distributeCards g1 room js now
  (gr.1, gr.2.updateActivity now)

/-- `GameManager.nextRound` (the manual fallback intent). -/
def nextRound (g : GameSession) (room : Room) (js : List Nat) (now : Nat) :
    GameSession × Room :=
  if g.currentRound ≥ g.maxRounds then endGame g room now
  else actuallyStartNextRound g room js now

/-- `GameManager.forceEndGame`. -/
def forceEndGame (g : GameSession) (room : Room) (now : Nat) : GameSession × Room :=
  endGame g room now

/-- `GameManager.handlePlayAgainResponse`. -/
def handlePlayAgainResponse (g : GameSession) (room : Room) (pid : PlayerId)
    (accepted : Bool) (now : Nat) : Option GErr × GameSession × Room :=
  if ¬ room.hasPlayer pid then (some .PlayerNotFound, g, room)
  else (none,
        { g with playAgainResponses := mapSet g.playAgainResponses pid accepted },
        room.updateActivity now)

/-- `GameManager.allPlayersAccepted`. -/
def allPlayersAccepted (g : GameSession) (room : Room) : Bool :=
  if g.playAgainResponses.length ≠ room.players.length then false
  else room.players.all (fun p => mapGet g.playAgainResponses p.id = some true)

/-- `GameManager.resetGame`. -/
def resetGame (g : GameSession) (room : Room) (now : Nat) : GameSession × Room :=
  let g1 := { g with state := GState.waiting
                     currentRound := 0
                     gameStartTime := (none : Option Nat)
                     gameEndTime := (none : Option Nat)
                     roundStartTime := (none : Option Nat)
                     currentCards := ([] : List (PlayerId × Card))
                     rajaPlayer := (none : Option PlayerId)
                     mantriPlayer := (none : Option PlayerId)
                     chorPlayer := (none : Option PlayerId)
                     sipahiPlayer := (none : Option PlayerId)
                     roundHistory := ([] : List RoundResult)
                     playAgainResponses := ([] : List (PlayerId × Bool))
                     scores := initializeScores room.players [] }
  let room1 := ({ room with state := RState.waiting } : Room).updateActivity now
  let room2 := { room1 with
    players := room1.players.map (fun p => { p with gamesPlayed := p.gamesPlayed + 1 }) }
  (g1, room2)

-- ### Results computation

/-- One comparison step of the stable descending sort.  The source sorts with
`Array.prototype.sort((a, b) => b.score - a.score)`; ECMAScript `sort` is
stable, so it is modelled as a stable insertion sort on the score key. -/
def insertRanked (x : Player × Nat) : List (Player × Nat) → List (Player × Nat)
  | [] => [x]
  | y :: ys => if x.2 ≥ y.2 then x :: y :: ys else y :: insertRanked x ys

/-- Stable descending-score sort of the ranking entries. -/
def sortRankings (l : List (Player × Nat)) : List (Player × Nat) :=
  l.foldr insertRanked []

/-- `Math.round(num / den)` on non-negative operands: round half up. -/
def jsRound (num den : Nat) : Nat := (2 * num + den) / (2 * den)

/-- The value computed by `GameManager.getResults` (player public data is
represented by the `Player` record itself). -/
structure GameResults where
  rankings : List (Player × Nat)
  winner : Option (Player × Nat)
  totalRounds : Nat
  gameDuration : Nat
  averageScorePerRound : Nat
  totalScore : Nat
deriving Repr

/-- `GameManager.getResults`. -/
def getResults (g : GameSession) (room : Room) (now : Nat) : GameResults :=
  let entries := room.players.map (fun p => (p, (mapGet g.scores p.id).getD 0))
  let rankings := sortRankings entries
  let gameDuration :=
    match g.gameEndTime with
    | some e => e - g.gameStartTime.getD 0
    | none => now - g.gameStartTime.getD 0
  let totalScore := (rankings.map Prod.snd).sum
  { rankings := rankings
    winner := rankings.head?
    totalRounds := g.currentRound
    gameDuration := gameDuration
    averageScorePerRound := jsRound totalScore (rankings.length * g.currentRound)
    totalScore := totalScore }

-- ### Registry operations

/-- `RoomManager.createRoom`.  The source draws a fresh `roomId` via
`generateRoomId` when none is supplied; the drawn id is an explicit argument
here, and the `rooms.has(roomId)` check below covers collisions. -/
def RoomManager.createRoom (rm : RoomManager) (roomId : Nat) (password : Option String)
    (creatorId : PlayerId) (creatorName : String) (maxPlayers : Nat) (now : Nat) :
    Option GErr × RoomManager :=
  if creatorName = "" then (some .MissingFields, rm)
  else if (mapGet rm.playerToRoom creatorId).isSome then (some .AlreadyInRoomAtCreate, rm)
  else if rm.rooms.length ≥ rm.maxRooms then (some .ServerFull, rm)
  else if (mapGet rm.rooms roomId).isSome then (some .RoomIdExists, rm)
  else
    match mkRoom roomId password creatorId creatorName maxPlayers now with
    | .error e => (some e, rm)
    | .ok room =>
      (none, { rm with rooms := mapSet rm.rooms roomId room
                       playerToRoom := mapSet rm.playerToRoom creatorId roomId })

/-- `RoomManager.joinRoom`. -/
def RoomManager.joinRoom (rm : RoomManager) (roomId : Nat) (pid : PlayerId)
    (pname : String) (password : Option String) (now : Nat) : Option GErr × RoomManager :=
  if pname = "" then (some .MissingFields, rm)
  else
    match mapGet rm.playerToRoom pid with
    | some currentRoomId =>
      if currentRoomId = roomId then (some .AlreadyInThisRoom, rm)
      else (some .AlreadyInOtherRoom, rm)
    | none =>
      match mapGet rm.rooms roomId with
      | none => (some .RoomNotFound, rm)
      | some room =>
        if ¬ room.verifyPassword password then (some .WrongPassword, rm)
        else
          match mkPlayer pid pname false now with
          | none => (some .InvalidName, rm)
          | some player =>
            match room.addPlayer player now with
            | .error e => (some e, rm)
            | .ok room1 =>
              (none, { rm with rooms := mapSet rm.rooms roomId room1
                               playerToRoom := mapSet rm.playerToRoom pid roomId })

/-- The outcome of `RoomManager.leaveRoom`. -/
structure LeaveOutcome where
  err : Option GErr
  rm : RoomManager
  leftRoomId : Option Nat
  roomDeleted : Bool
  wasCreator : Bool
deriving Repr

/-- The creator-departure fix-up inside `leaveRoom`: transfer ownership to the
player now at index 0 when the leaver was the creator and players remain. -/
def leaveCreatorFix (room1 : Room) (wasCreator : Bool) (now : Nat) : Room :=
  if wasCreator && !room1.isEmpty then
    match room1.players.head? with
    | some p0 =>
      match room1.transferOwnership p0.id now with
      | .ok r => r
      | .error _ => room1  -- head is a member, so this branch is vacuous
    | none => room1
  else room1

/-- `RoomManager.leaveRoom`.  Note the source `delete`s the reverse-map entry
*before* throwing `Room not found` when the forward map lacks the room — the
one mutating error path. -/
def RoomManager.leaveRoom (rm : RoomManager) (pid : PlayerId) (now : Nat) : LeaveOutcome :=
  match mapGet rm.playerToRoom pid with
  | none => ⟨some .NotInRoom, rm, none, false, false⟩
  | some roomId =>
    match mapGet rm.rooms roomId with
    | none =>
      ⟨some .RoomNotFound, { rm with playerToRoom := mapDel rm.playerToRoom pid },
       none, false, false⟩
    | some room =>
      let wasCreator := room.isCreator pid
      match room.removePlayer pid now with
      | .error e => ⟨some e, rm, none, false, false⟩
      | .ok (_, room1) =>
        let rm1 := { rm with playerToRoom := mapDel rm.playerToRoom pid }
        let room2 := leaveCreatorFix room1 wasCreator now
        if room2.isEmpty then
          ⟨none, { rm1 with rooms := mapDel rm1.rooms roomId }, some roomId, true, wasCreator⟩
        else
          ⟨none, { rm1 with rooms := mapSet rm1.rooms roomId room2 }, some roomId, false,
           wasCreator⟩

/-- `RoomManager.getRoomByPlayerId`. -/
def RoomManager.getRoomByPlayerId (rm : RoomManager) (pid : PlayerId) :
    Option (Nat × Room) :=
  match mapGet rm.playerToRoom pid with
  | none => none
  | some rid => (mapGet rm.rooms rid).map (fun room => (rid, room))

/-- The staleness test of `cleanupStaleRooms`. -/
def staleTest (now : Nat) (room : Room) : Bool :=
  let inactiveTime := now - room.lastActivity
  (room.isEmpty && inactiveTime > 10 * 60 * 1000) || inactiveTime > 30 * 60 * 1000

/-- One iteration of the stale-room `forEach`: clear the reverse-map entries of
the room's members, then delete the room. -/
def removeStaleRoom (rm : RoomManager) (roomId : Nat) : RoomManager :=
  match mapGet rm.rooms roomId with
  | none => rm
  | some room =>
    { rm with playerToRoom := room.players.foldl (fun acc p => mapDel acc p.id) rm.playerToRoom
              rooms := mapDel rm.rooms roomId }

/-- `RoomManager.cleanupStaleRooms`. -/
def RoomManager.cleanupStaleRooms (rm : RoomManager) (now : Nat) : RoomManager :=
  let staleRooms := (rm.rooms.filter (fun kv => staleTest now kv.2)).map Prod.fst
  staleRooms.foldl removeStaleRoom rm

-- ### Socket facade (index.js)

/-- The `createRoom` socket handler: registry `createRoom`, then
`room.game = new GameManager(room, io)` on success. -/
def facadeCreateRoom (rm : RoomManager) (roomId : Nat) (password : Option String)
    (creatorId : PlayerId) (creatorName : String) (maxPlayers : Nat) (now : Nat) :
    Option GErr × RoomManager :=
  match rm.createRoom roomId password creatorId creatorName maxPlayers now with
  | (some e, rm1) => (some e, rm1)
  | (none, rm1) =>
    match mapGet rm1.rooms roomId with
    | some room =>
      let room1 := { room with game := some (GameSession.init room) }
      (none, { rm1 with rooms := mapSet rm1.rooms roomId room1 })
    | none => (none, rm1)

/-- The `leaveRoom` socket handler: registry `leaveRoom`, then force-end the
game when fewer than 4 players remain while it is in progress. -/
def facadeLeaveRoom (rm : RoomManager) (pid : PlayerId) (now : Nat) :
    Option GErr × RoomManager :=
  let o := rm.leaveRoom pid now
  match o.err with
  | some e => (some e, o.rm)
  | none =>
    if o.roomDeleted then (none, o.rm)
    else
      match o.leftRoomId with
      | none => (none, o.rm)
      | some rid =>
        match mapGet o.rm.rooms rid with
        | none => (none, o.rm)
        | some room =>
          match room.game with
          | none => (none, o.rm)
          | some g =>
            if room.players.length < 4 ∧ g.state = .playing then
              let gr := forceEndGame g room now
              let room1 := { gr.2 with game := some gr.1 }
              (none, { o.rm with rooms := mapSet o.rm.rooms rid room1 })
            else (none, o.rm)

/-- The `startGame` socket handler.  A successful call only schedules the
countdown, so the registry state is unchanged. -/
def facadeStartGame (rm : RoomManager) (pid : PlayerId) : Option GErr × RoomManager :=
  match rm.getRoomByPlayerId pid with
  | none => (some .NotInRoom, rm)
  | some (_, room) =>
    if ¬ room.isCreator pid then (some .CreatorRequired, rm)
    else
      match room.game with
      | none => (some .NoGame, rm)
      | some g =>
        match startGame g room with
        | (some e, _) => (some e, rm)
        | (none, _) => (none, rm)

/-- The `makeGuess` socket handler. -/
def facadeMakeGuess (rm : RoomManager) (pid target : PlayerId) (now : Nat) :
    Option GErr × RoomManager :=
  match rm.getRoomByPlayerId pid with
  | none => (some .NotInRoom, rm)
  | some (rid, room) =>
    match room.game with
    | none => (some .NoGame, rm)
    | some g =>
      match makeGuess g room pid target now with
      | (some e, _, _) => (some e, rm)
      | (none, g1, room1) =>
        let room2 := { room1 with game := some g1 }
        (none, { rm with rooms := mapSet rm.rooms rid room2 })

/-- The `playAgainResponse` socket handler: record the response, then reset
the game when all members accepted. -/
def facadePlayAgain (rm : RoomManager) (pid : PlayerId) (accepted : Bool) (now : Nat) :
    Option GErr × RoomManager :=
  match rm.getRoomByPlayerId pid with
  | none => (some .NotInRoom, rm)
  | some (rid, room) =>
    match room.game with
    | none => (some .NoGame, rm)
    | some g =>
      match handlePlayAgainResponse g room pid accepted now with
      | (some e, _, _) => (some e, rm)
      | (none, g1, room1) =>
        if allPlayersAccepted g1 room1 then
          let gr := resetGame g1 room1 now
          let room2 := { gr.2 with game := some gr.1 }
          (none, { rm with rooms := mapSet rm.rooms rid room2 })
        else
          let room2 := { room1 with game := some g1 }
          (none, { rm with rooms := mapSet rm.rooms rid room2 })

/-- The `nextRound` socket handler (manual fallback). -/
def facadeNextRound (rm : RoomManager) (pid : PlayerId) (js : List Nat) (now : Nat) :
    Option GErr × RoomManager :=
  match rm.getRoomByPlayerId pid with
  | none => (some .NotInRoom, rm)
  | some (rid, room) =>
    if ¬ room.isCreator pid then (some .CreatorRequired, rm)
    else
      match room.game with
      | none => (some .NoGame, rm)
      | some g =>
        let gr := nextRound g room js now
        let room1 := { gr.2 with game := some gr.1 }
        (none, { rm with rooms := mapSet rm.rooms rid room1 })

/-- A timer firing against the room it was armed for: apply a session/room
transformer to the room's attached game, if both still exist. -/
def timerStep (rm : RoomManager) (rid : Nat)
    (f : GameSession → Room → GameSession × Room) : RoomManager :=
  match mapGet rm.rooms rid with
  | none => rm
  | some room =>
    match room.game with
    | none => rm
    | some g =>
      let gr := f g room
      let room1 := { gr.2 with game := some gr.1 }
      { rm with rooms := mapSet rm.rooms rid room1 }

/-- A direct `transferOwnership` on a stored room. -/
def transferStep (rm : RoomManager) (rid : Nat) (newCid : PlayerId) (now : Nat) :
    RoomManager :=
  match mapGet rm.rooms rid with
  | none => rm
  | some room =>
    match room.transferOwnership newCid now with
    | .error _ => rm
    | .ok room1 => { rm with rooms := mapSet rm.rooms rid room1 }

-- ### System step relation

/-- One observable transition of the server: a socket intent handled by the
facade, a timer firing, or the periodic cleanup sweep.  Timer firings are
over-approximated: they may occur at any time, which only enlarges the set of
reachable states. -/
inductive Step : RoomManager → RoomManager → Prop where
  | create (rm : RoomManager) (roomId : Nat) (password : Option String) (creatorId : PlayerId)
      (creatorName : String) (maxPlayers now : Nat) :
      Step rm (facadeCreateRoom rm roomId password creatorId creatorName maxPlayers now).2
  | join (rm : RoomManager) (roomId : Nat) (pid : PlayerId) (pname : String)
      (password : Option String) (now : Nat) :
      Step rm (rm.joinRoom roomId pid pname password now).2
  | leave (rm : RoomManager) (pid : PlayerId) (now : Nat) :
      Step rm (facadeLeaveRoom rm pid now).2
  | startG (rm : RoomManager) (pid : PlayerId) :
      Step rm (facadeStartGame rm pid).2
  | fireStart (rm : RoomManager) (rid : Nat) (js : List Nat) (now : Nat) :
      Step rm (timerStep rm rid (fun g room => actuallyStartGame g room js now))
  | guess (rm : RoomManager) (pid target : PlayerId) (now : Nat) :
      Step rm (facadeMakeGuess rm pid target now).2
  | fireTimeout (rm : RoomManager) (rid : Nat) (now : Nat) :
      Step rm (timerStep rm rid (fun g room => handleRoundTimeout g room now))
  | fireNextRound (rm : RoomManager) (rid : Nat) (js : List Nat) (now : Nat) :
      Step rm (timerStep rm rid (fun g room => actuallyStartNextRound g room js now))
  | manualNext (rm : RoomManager) (pid : PlayerId) (js : List Nat) (now : Nat) :
      Step rm (facadeNextRound rm pid js now).2
  | playAgain (rm : RoomManager) (pid : PlayerId) (accepted : Bool) (now : Nat) :
      Step rm (facadePlayAgain rm pid accepted now).2
  | transfer (rm : RoomManager) (rid : Nat) (newCid : PlayerId) (now : Nat) :
      Step rm (transferStep rm rid newCid now)
  | cleanup (rm : RoomManager) (now : Nat) :
      Step rm (rm.cleanupStaleRooms now)

/-- States reachable from the freshly constructed registry. -/
def Reachable (rm : RoomManager) : Prop :=
  Relation.ReflTransGen Step initRM rm

-- ### Invariants

/-- Well-formedness of a stored room: distinct player ids, capacity respected,
non-empty, exactly one `isCreator` flag, and the flag held by `creatorId`. -/
def RoomWF (room : Room) : Prop :=
  (room.players.map Player.id).Nodup ∧
  room.players.length ≤ room.maxPlayers ∧
  room.players ≠ [] ∧
  room.players.countP (fun p => p.isCreator) = 1 ∧
  (∀ p ∈ room.players, p.isCreator = true → p.id = room.creatorId)

/-- Mutual consistency of the registry's two maps: `playerToRoom` sends `p` to
`r` exactly when the room stored at `r` contains `p`. -/
def Consistent (rm : RoomManager) : Prop :=
  ∀ p r, mapGet rm.playerToRoom p = some r ↔
    (∃ room, mapGet rm.rooms r = some room ∧ room.hasPlayer p = true)

/-- The inductive invariant of the registry. -/
def Inv (rm : RoomManager) : Prop :=
  (keysOf rm.rooms).Nodup ∧
  (keysOf rm.playerToRoom).Nodup ∧
  (∀ r room, mapGet rm.rooms r = some room → RoomWF room) ∧
  Consistent rm

-- ### Invariant preservation machinery

theorem hasPlayer_iff (room : Room) (pid : PlayerId) :
    room.hasPlayer pid = true ↔ pid ∈ room.players.map Player.id := by
  constructor
  · intro h
    unfold Room.hasPlayer at h
    rw [List.any_eq_true] at h
    obtain ⟨p, hp, hpe⟩ := h
    rw [decide_eq_true_eq] at hpe
    exact List.mem_map.mpr ⟨p, hp, hpe⟩
  · intro h
    obtain ⟨p, hp, rfl⟩ := List.mem_map.mp h
    unfold Room.hasPlayer
    rw [List.any_eq_true]
    exact ⟨p, hp, by simp⟩

/-- Membership data shared by two room values: identical player ids and
creator flags position by position, same `creatorId` and capacity. -/
def SameMembers (room room' : Room) : Prop :=
  List.Forall₂ (fun p q => q.id = p.id ∧ q.isCreator = p.isCreator)
    room.players room'.players ∧
  room'.creatorId = room.creatorId ∧
  room'.maxPlayers = room.maxPlayers

theorem forall₂_map_id {l l' : List Player}
    (h : List.Forall₂ (fun p q => q.id = p.id ∧ q.isCreator = p.isCreator) l l') :
    l'.map Player.id = l.map Player.id := by
  induction h with
  | nil => rfl
  | cons hpq _ ih => simp [hpq.1, ih]

theorem forall₂_countP {l l' : List Player}
    (h : List.Forall₂ (fun p q => q.id = p.id ∧ q.isCreator = p.isCreator) l l') :
    l'.countP (fun p => p.isCreator) = l.countP (fun p => p.isCreator) := by
  induction h with
  | nil => rfl
  | cons hpq _ ih => simp [List.countP_cons, hpq.2, ih]

theorem forall₂_flag_mem {l l' : List Player}
    (h : List.Forall₂ (fun p q => q.id = p.id ∧ q.isCreator = p.isCreator) l l') :
    ∀ q ∈ l', q.isCreator = true → ∃ p ∈ l, p.id = q.id ∧ p.isCreator = true := by
  induction h with
  | nil => intro q hq; simp at hq
  | cons hpq _ ih =>
    intro q hq hflag
    rcases List.mem_cons.mp hq with rfl | hq
    · exact ⟨_, List.mem_cons_self _ _, hpq.1.symm, hpq.2 ▸ hflag⟩
    · obtain ⟨p, hp, hid, hfl⟩ := ih q hq hflag
      exact ⟨p, List.mem_cons_of_mem _ hp, hid, hfl⟩

theorem RoomWF.sameMembers {room room' : Room} (hwf : RoomWF room)
    (hsm : SameMembers room room') : RoomWF room' := by
  obtain ⟨hf, hcid, hmax⟩ := hsm
  obtain ⟨hnd, hlen, hne, hcount, hflag⟩ := hwf
  refine ⟨?_, ?_, ?_, ?_, ?_⟩
  · rw [forall₂_map_id hf]; exact hnd
  · rw [← hf.length_eq, hmax]; exact hlen
  · intro he
    apply hne
    have hlen2 := hf.length_eq
    rw [he] at hlen2
    exact List.length_eq_zero.mp (by simpa using hlen2)
  · rw [forall₂_countP hf]; exact hcount
  · intro q hq hfl
    obtain ⟨p, hp, hid, hpfl⟩ := forall₂_flag_mem hf q hq hfl
    rw [hcid, ← hid]
    exact hflag p hp hpfl

theorem hasPlayer_sameMembers {room room' : Room} (hsm : SameMembers room room')
    (pid : PlayerId) : room'.hasPlayer pid = room.hasPlayer pid := by
  rcases h' : room'.hasPlayer pid with _ | _ <;> rcases h : room.hasPlayer pid with _ | _
  · rfl
  · exfalso
    rw [hasPlayer_iff, ← forall₂_map_id hsm.1] at h
    have := (hasPlayer_iff room' pid).not.mp (by simp [h'])
    exact this h
  · exfalso
    rw [hasPlayer_iff, forall₂_map_id hsm.1] at h'
    have := (hasPlayer_iff room pid).not.mp (by simp [h])
    exact this h'
  · rfl

theorem sameMembers_of_players_eq {room room' : Room} (hp : room'.players = room.players)
    (hc : room'.creatorId = room.creatorId) (hm : room'.maxPlayers = room.maxPlayers) :
    SameMembers room room' := by
  refine ⟨?_, hc, hm⟩
  rw [hp]
  exact List.forall₂_same.mpr (fun x _ => ⟨rfl, rfl⟩)

theorem sameMembers_gamesPlayed (room : Room) (room' : Room)
    (hp : room'.players
      = room.players.map (fun p => { p with gamesPlayed := p.gamesPlayed + 1 }))
    (hc : room'.creatorId = room.creatorId) (hm : room'.maxPlayers = room.maxPlayers) :
    SameMembers room room' := by
  refine ⟨?_, hc, hm⟩
  rw [hp]
  clear hp
  induction room.players with
  | nil => exact List.Forall₂.nil
  | cons hd tl ih => exact List.Forall₂.cons ⟨rfl, rfl⟩ ih

/-- Replacing a stored room by a well-formed one containing the same player
ids preserves the registry invariant. -/
theorem Inv.updateRoomCore {rm : RoomManager} {rid : Nat} {room room' : Room}
    (hInv : Inv rm) (hget : mapGet rm.rooms rid = some room)
    (hwf' : RoomWF room → RoomWF room')
    (hhas : ∀ p, room'.hasPlayer p = room.hasPlayer p) :
    Inv { rm with rooms := mapSet rm.rooms rid room' } := by
  obtain ⟨hndr, hndp, hwf, hcons⟩ := hInv
  refine ⟨nodup_keysOf_mapSet _ _ _ hndr, hndp, ?_, ?_⟩
  · intro r rr hgr
    by_cases hr : rid = r
    · subst hr
      rw [mapGet_mapSet_self] at hgr
      obtain rfl : room' = rr := Option.some.inj hgr
      exact hwf' (hwf _ _ hget)
    · rw [mapGet_mapSet_ne _ _ _ _ hr] at hgr
      exact hwf _ _ hgr
  · intro p r
    rw [hcons p r]
    by_cases hr : rid = r
    · subst hr
      constructor
      · rintro ⟨rr, hgr, hhas2⟩
        obtain rfl : room = rr := Option.some.inj (hget ▸ hgr)
        exact ⟨room', mapGet_mapSet_self _ _ _, (hhas p).trans hhas2⟩
      · rintro ⟨rr, hgr, hhas2⟩
        rw [mapGet_mapSet_self] at hgr
        obtain rfl : room' = rr := Option.some.inj hgr
        exact ⟨room, hget, (hhas p).symm.trans hhas2⟩
    · constructor
      · rintro ⟨rr, hgr, hhas2⟩
        exact ⟨rr, (mapGet_mapSet_ne _ _ _ _ hr).symm ▸ hgr, hhas2⟩
      · rintro ⟨rr, hgr, hhas2⟩
        rw [mapGet_mapSet_ne _ _ _ _ hr] at hgr
        exact ⟨rr, hgr, hhas2⟩

/-- Replacing a stored room by one with the same membership data preserves the
registry invariant. -/
theorem Inv.updateRoom {rm : RoomManager} {rid : Nat} {room room' : Room}
    (hInv : Inv rm) (hget : mapGet rm.rooms rid = some room)
    (hsm : SameMembers room room') :
    Inv { rm with rooms := mapSet rm.rooms rid room' } :=
  hInv.updateRoomCore hget (fun hwf => hwf.sameMembers hsm)
    (fun p => hasPlayer_sameMembers hsm p)

theorem sameMembers_setGame {room room' : Room} (h : SameMembers room room')
    (g : Option GameSession) : SameMembers room { room' with game := g } :=
  ⟨h.1, h.2.1, h.2.2⟩

-- ### Shape preservation of the game operations

theorem sameMembers_actuallyStartGame (g : GameSession) (room : Room) (js : List Nat)
    (now : Nat) : SameMembers room (actuallyStartGame g room js now).2 :=
  sameMembers_of_players_eq rfl rfl rfl

theorem sameMembers_handleRoundTimeout (g : GameSession) (room : Room) (now : Nat) :
    SameMembers room (handleRoundTimeout g room now).2 := by
  unfold handleRoundTimeout scheduleNextRound
  dsimp only
  split <;> exact sameMembers_of_players_eq rfl rfl rfl

theorem sameMembers_actuallyStartNextRound (g : GameSession) (room : Room) (js : List Nat)
    (now : Nat) : SameMembers room (actuallyStartNextRound g room js now).2 :=
  sameMembers_of_players_eq rfl rfl rfl

theorem sameMembers_nextRound (g : GameSession) (room : Room) (js : List Nat) (now : Nat) :
    SameMembers room (nextRound g room js now).2 := by
  unfold nextRound
  split <;> exact sameMembers_of_players_eq rfl rfl rfl

theorem sameMembers_makeGuess (g : GameSession) (room : Room) (mid tid : PlayerId)
    (now : Nat) : SameMembers room (makeGuess g room mid tid now).2.2 := by
  unfold makeGuess scheduleNextRound
  dsimp only
  split_ifs <;> exact sameMembers_of_players_eq rfl rfl rfl

theorem sameMembers_handlePlayAgain (g : GameSession) (room : Room) (pid : PlayerId)
    (accepted : Bool) (now : Nat) :
    SameMembers room (handlePlayAgainResponse g room pid accepted now).2.2 := by
  unfold handlePlayAgainResponse
  split_ifs <;> exact sameMembers_of_players_eq rfl rfl rfl

theorem sameMembers_resetGame (g : GameSession) (room : Room) (now : Nat) :
    SameMembers room (resetGame g room now).2 :=
  sameMembers_gamesPlayed room _ rfl rfl rfl

theorem sameMembers_forceEndGame (g : GameSession) (room : Room) (now : Nat) :
    SameMembers room (forceEndGame g room now).2 :=
  sameMembers_of_players_eq rfl rfl rfl

theorem forall₂_members_comp {l l' l'' : List Player}
    (h1 : List.Forall₂ (fun p q => q.id = p.id ∧ q.isCreator = p.isCreator) l l')
    (h2 : List.Forall₂ (fun p q => q.id = p.id ∧ q.isCreator = p.isCreator) l' l'') :
    List.Forall₂ (fun p q => q.id = p.id ∧ q.isCreator = p.isCreator) l l'' := by
  induction h1 generalizing l'' with
  | nil =>
    cases h2
    exact .nil
  | cons hpq htl ih =>
    cases h2 with
    | cons hqr htl2 => exact .cons ⟨hqr.1.trans hpq.1, hqr.2.trans hpq.2⟩ (ih htl2)

theorem sameMembers_trans {a b c : Room} (h1 : SameMembers a b) (h2 : SameMembers b c) :
    SameMembers a c :=
  ⟨forall₂_members_comp h1.1 h2.1, h2.2.1.trans h1.2.1, h2.2.2.trans h1.2.2⟩

theorem hasPlayer_eq_of_ids {room room' : Room}
    (h : room'.players.map Player.id = room.players.map Player.id) (p : PlayerId) :
    room'.hasPlayer p = room.hasPlayer p := by
  rcases h' : room'.hasPlayer p with _ | _ <;> rcases h0 : room.hasPlayer p with _ | _
  · rfl
  · exfalso
    rw [hasPlayer_iff, ← h] at h0
    exact (hasPlayer_iff room' p).not.mp (by simp [h']) h0
  · exfalso
    rw [hasPlayer_iff, h] at h'
    exact (hasPlayer_iff room p).not.mp (by simp [h0]) h'
  · rfl

-- ### Unpacking lemmas for the room operations

theorem getRoomByPlayerId_some {rm : RoomManager} {pid : PlayerId} {rid : Nat} {room : Room}
    (h : rm.getRoomByPlayerId pid = some (rid, room)) :
    mapGet rm.playerToRoom pid = some rid ∧ mapGet rm.rooms rid = some room := by
  unfold RoomManager.getRoomByPlayerId at h
  cases hp : mapGet rm.playerToRoom pid with
  | none => rw [hp] at h; cases h
  | some r =>
    rw [hp] at h
    dsimp only at h
    cases hr : mapGet rm.rooms r with
    | none => rw [hr] at h; cases h
    | some rr =>
      rw [hr] at h
      simp only [Option.map, Option.some.injEq, Prod.mk.injEq] at h
      obtain ⟨rfl, rfl⟩ := h
      exact ⟨rfl, hr⟩

theorem mkPlayer_some {pid : PlayerId} {name : String} {flag : Bool} {now : Nat} {p : Player}
    (h : mkPlayer pid name flag now = some p) :
    p.id = pid ∧ p.isCreator = flag ∧ p.gamesPlayed = 0 := by
  unfold mkPlayer at h
  cases hs : sanitizeName name with
  | none => rw [hs] at h; cases h
  | some n =>
    rw [hs] at h
    obtain rfl := Option.some.inj h
    exact ⟨rfl, rfl, rfl⟩

theorem addPlayer_ok {room : Room} {p : Player} {now : Nat} {room1 : Room}
    (h : room.addPlayer p now = .ok room1) :
    room1.players = room.players ++ [p] ∧ room.players.length < room.maxPlayers ∧
    room.hasPlayer p.id = false ∧ room1.creatorId = room.creatorId ∧
    room1.maxPlayers = room.maxPlayers ∧ room1.state = room.state ∧
    room1.game = room.game ∧ room1.roomId = room.roomId := by
  unfold Room.addPlayer at h
  split_ifs at h with h1 h2 h3
  have hlt : room.players.length < room.maxPlayers := by omega
  have hhp : room.hasPlayer p.id = false := by
    rcases hb : room.hasPlayer p.id with _ | _
    · rfl
    · exact absurd hb h2
  obtain rfl := Except.ok.inj h
  exact ⟨rfl, hlt, hhp, rfl, rfl, rfl, rfl, rfl⟩

theorem getPlayer_some {room : Room} {pid : PlayerId} {q : Player}
    (h : room.getPlayer pid = some q) : q ∈ room.players ∧ q.id = pid := by
  unfold Room.getPlayer at h
  refine ⟨List.mem_of_find?_eq_some h, ?_⟩
  have := List.find?_some h
  rwa [decide_eq_true_eq] at this

theorem getPlayer_none {room : Room} {pid : PlayerId}
    (h : room.getPlayer pid = none) : room.hasPlayer pid = false := by
  unfold Room.getPlayer at h
  rw [List.find?_eq_none] at h
  rcases hh : room.hasPlayer pid with _ | _
  · rfl
  · exfalso
    rw [hasPlayer_iff] at hh
    obtain ⟨q, hq, rfl⟩ := List.mem_map.mp hh
    exact absurd (by simp : decide (q.id = q.id) = true) (by simpa using h q hq)

theorem hasPlayer_getPlayer {room : Room} {pid : PlayerId}
    (h : room.hasPlayer pid = true) : ∃ q, room.getPlayer pid = some q := by
  cases hg : room.getPlayer pid with
  | none => rw [getPlayer_none hg] at h; cases h
  | some q => exact ⟨q, rfl⟩

theorem addPlayer_empty (room : Room) (p : Player) (now : Nat)
    (hempty : room.players = []) (hmp : 0 < room.maxPlayers) :
    room.addPlayer p now = .ok { room with players := [p], lastActivity := now } := by
  unfold Room.addPlayer Room.hasPlayer
  rw [hempty]
  rw [if_neg (by simp only [List.length_nil]; omega), if_neg (by simp), if_neg (by simp)]
  simp

theorem mkRoom_ok {rid : Nat} {pw : Option String} {cid : PlayerId} {cname : String}
    {mp now : Nat} {room : Room} (h : mkRoom rid pw cid cname mp now = .ok room) :
    ∃ creator, mkPlayer cid cname true now = some creator ∧
      room.players = [creator] ∧ room.creatorId = cid ∧
      1 ≤ room.maxPlayers ∧ room.state = RState.waiting ∧ room.roomId = rid ∧
      room.game = none := by
  unfold mkRoom at h
  cases hp : mkPlayer cid cname true now with
  | none => rw [hp] at h; cases h
  | some creator =>
    rw [hp] at h
    dsimp only at h
    refine ⟨creator, rfl, ?_⟩
    rw [addPlayer_empty _ _ _ rfl (by dsimp only; split <;> omega)] at h
    obtain rfl := Except.ok.inj h
    exact ⟨rfl, rfl, by dsimp only; split <;> omega, rfl, rfl, rfl⟩

-- ### Per-step invariant preservation (game/timer steps)

theorem inv_timerStep {rm : RoomManager} {rid : Nat}
    {f : GameSession → Room → GameSession × Room} (hInv : Inv rm)
    (hf : ∀ g room, SameMembers room (f g room).2) :
    Inv (timerStep rm rid f) := by
  unfold timerStep
  rcases hget : mapGet rm.rooms rid with _ | room <;> dsimp only
  · exact hInv
  · rcases hg : room.game with _ | g <;> dsimp only
    · exact hInv
    · exact hInv.updateRoom hget (sameMembers_setGame (hf g room) _)

theorem facadeStartGame_rm (rm : RoomManager) (pid : PlayerId) :
    (facadeStartGame rm pid).2 = rm := by
  unfold facadeStartGame
  rcases rm.getRoomByPlayerId pid with _ | ⟨rid, room⟩ <;> dsimp only
  split_ifs with h
  · rcases room.game with _ | g <;> dsimp only
    rcases hs : startGame g room with ⟨e, g1⟩
    rcases e with _ | e <;> rfl
  · rfl

theorem inv_facadeMakeGuess {rm : RoomManager} (hInv : Inv rm) (pid target : PlayerId)
    (now : Nat) : Inv (facadeMakeGuess rm pid target now).2 := by
  unfold facadeMakeGuess
  rcases hget : rm.getRoomByPlayerId pid with _ | ⟨rid, room⟩ <;> dsimp only
  · exact hInv
  · rcases hg : room.game with _ | g <;> dsimp only
    · exact hInv
    · rcases hmk : makeGuess g room pid target now with ⟨e, g1, room1⟩
      rcases e with _ | e <;> dsimp only
      · have hsm : SameMembers room room1 := by
          have := sameMembers_makeGuess g room pid target now
          rwa [hmk] at this
        exact hInv.updateRoom (getRoomByPlayerId_some hget).2 (sameMembers_setGame hsm _)
      · exact hInv

theorem inv_facadePlayAgain {rm : RoomManager} (hInv : Inv rm) (pid : PlayerId)
    (accepted : Bool) (now : Nat) : Inv (facadePlayAgain rm pid accepted now).2 := by
  unfold facadePlayAgain
  rcases hget : rm.getRoomByPlayerId pid with _ | ⟨rid, room⟩ <;> dsimp only
  · exact hInv
  · rcases hg : room.game with _ | g <;> dsimp only
    · exact hInv
    · rcases hpa : handlePlayAgainResponse g room pid accepted now with ⟨e, g1, room1⟩
      rcases e with _ | e <;> dsimp only
      · have hsm1 : SameMembers room room1 := by
          have := sameMembers_handlePlayAgain g room pid accepted now
          rwa [hpa] at this
        split_ifs with hacc
        · exact hInv.updateRoom (getRoomByPlayerId_some hget).2
            (sameMembers_setGame (sameMembers_trans hsm1 (sameMembers_resetGame g1 room1 now)) _)
        · exact hInv.updateRoom (getRoomByPlayerId_some hget).2 (sameMembers_setGame hsm1 _)
      · exact hInv

theorem inv_facadeNextRound {rm : RoomManager} (hInv : Inv rm) (pid : PlayerId)
    (js : List Nat) (now : Nat) : Inv (facadeNextRound rm pid js now).2 := by
  unfold facadeNextRound
  rcases hget : rm.getRoomByPlayerId pid with _ | ⟨rid, room⟩ <;> dsimp only
  · exact hInv
  · split_ifs with h
    · rcases hg : room.game with _ | g <;> dsimp only
      · exact hInv
      · exact hInv.updateRoom (getRoomByPlayerId_some hget).2
          (sameMembers_setGame (sameMembers_nextRound g room js now) _)
    · exact hInv

-- ### Transfer-ownership list lemmas

theorem map_id_clearFirstCreator (l : List Player) :
    (clearFirstCreator l).map Player.id = l.map Player.id := by
  induction l with
  | nil => rfl
  | cons p ps ih =>
    unfold clearFirstCreator
    split <;> simp [ih]

theorem map_id_setCreatorFirst (cid : PlayerId) (l : List Player) :
    (setCreatorFirst cid l).map Player.id = l.map Player.id := by
  induction l with
  | nil => rfl
  | cons p ps ih =>
    unfold setCreatorFirst
    split <;> simp [ih]

theorem countP_clearFirstCreator (l : List Player)
    (h : l.countP (fun p => p.isCreator) = 1) :
    (clearFirstCreator l).countP (fun p => p.isCreator) = 0 := by
  induction l with
  | nil => simp at h
  | cons p ps ih =>
    rw [List.countP_cons] at h
    by_cases hfl : p.isCreator = true
    · rw [hfl] at h
      rw [if_pos rfl] at h
      have hz : ps.countP (fun p => p.isCreator) = 0 := by omega
      simp [clearFirstCreator, hfl, List.countP_cons, hz]
    · have hfl2 : p.isCreator = false := by
        rcases hb : p.isCreator with _ | _
        · rfl
        · exact absurd hb hfl
      rw [hfl2] at h
      rw [if_neg Bool.false_ne_true, Nat.add_zero] at h
      simp [clearFirstCreator, hfl2, List.countP_cons, ih h]

theorem flags_false_of_countP_zero {l : List Player}
    (h : l.countP (fun p => p.isCreator) = 0) : ∀ p ∈ l, p.isCreator = false := by
  intro p hp
  have := List.countP_eq_zero.mp h p hp
  rcases hb : p.isCreator with _ | _
  · rfl
  · exact absurd (by simpa using hb) this

theorem setCreatorFirst_props (cid : PlayerId) (l : List Player)
    (hmem : cid ∈ l.map Player.id) (hz : l.countP (fun p => p.isCreator) = 0) :
    (setCreatorFirst cid l).countP (fun p => p.isCreator) = 1 ∧
    (∀ p ∈ setCreatorFirst cid l, p.isCreator = true → p.id = cid) := by
  induction l with
  | nil => simp at hmem
  | cons q qs ih =>
    have hqflag : q.isCreator = false :=
      flags_false_of_countP_zero hz q (List.mem_cons_self _ _)
    have hzqs : qs.countP (fun p => p.isCreator) = 0 := by
      rw [List.countP_cons, hqflag] at hz
      simpa using hz
    by_cases hid : q.id = cid
    · constructor
      · simp [setCreatorFirst, hid, List.countP_cons, hzqs]
      · intro p hp hflag
        simp only [setCreatorFirst, hid, if_pos] at hp
        rcases List.mem_cons.mp hp with rfl | hp
        · simp [hid]
        · exact absurd hflag (by simp [flags_false_of_countP_zero hzqs p hp])
    · have hmem2 : cid ∈ qs.map Player.id := by
        rcases List.mem_cons.mp (show cid ∈ q.id :: qs.map Player.id from hmem) with hc | hc
        · exact absurd hc.symm hid
        · exact hc
      obtain ⟨ih1, ih2⟩ := ih hmem2 hzqs
      constructor
      · simp [setCreatorFirst, hid, List.countP_cons, hqflag, ih1]
      · intro p hp hflag
        simp only [setCreatorFirst, hid, if_neg] at hp
        rcases List.mem_cons.mp hp with rfl | hp
        · exact absurd hflag (by simp [hqflag])
        · exact ih2 p hp hflag

theorem transferOwnership_ok {room : Room} {ncid : PlayerId} {now : Nat} {room1 : Room}
    (h : room.transferOwnership ncid now = .ok room1) :
    room1.players = setCreatorFirst ncid (clearFirstCreator room.players) ∧
    room1.creatorId = ncid ∧ room1.maxPlayers = room.maxPlayers ∧
    ncid ∈ room.players.map Player.id ∧ room1.state = room.state ∧
    room1.game = room.game := by
  unfold Room.transferOwnership at h
  cases hg : room.getPlayer ncid with
  | none => rw [hg] at h; cases h
  | some q =>
    rw [hg] at h
    obtain rfl := Except.ok.inj h
    obtain ⟨hqmem, hqid⟩ := getPlayer_some hg
    exact ⟨rfl, rfl, rfl, List.mem_map.mpr ⟨q, hqmem, hqid⟩, rfl, rfl⟩

theorem RoomWF_transfer {room room1 : Room} {ncid : PlayerId} (hwf : RoomWF room)
    (hp : room1.players = setCreatorFirst ncid (clearFirstCreator room.players))
    (hcid : room1.creatorId = ncid) (hmax : room1.maxPlayers = room.maxPlayers)
    (hmem : ncid ∈ room.players.map Player.id) : RoomWF room1 := by
  obtain ⟨hnd, hlen, hne, hcount, hflag⟩ := hwf
  have hids : room1.players.map Player.id = room.players.map Player.id := by
    rw [hp, map_id_setCreatorFirst, map_id_clearFirstCreator]
  have hmem2 : ncid ∈ (clearFirstCreator room.players).map Player.id := by
    rwa [map_id_clearFirstCreator]
  obtain ⟨hc1, hc2⟩ := setCreatorFirst_props ncid (clearFirstCreator room.players) hmem2
    (countP_clearFirstCreator _ hcount)
  refine ⟨?_, ?_, ?_, ?_, ?_⟩
  · rw [hids]; exact hnd
  · have : room1.players.length = room.players.length := by
      have := congrArg List.length hids
      simpa using this
    rw [this, hmax]; exact hlen
  · intro he
    apply hne
    rw [he] at hids
    have := congrArg List.length hids
    simp only [List.map_nil, List.length_nil, List.length_map] at this
    exact List.length_eq_zero.mp this.symm
  · rw [hp]; exact hc1
  · intro p hpm hfl
    rw [hcid]
    exact hc2 p (hp ▸ hpm) hfl

theorem hasPlayer_append {room room2 : Room} {p : Player}
    (h : room2.players = room.players ++ [p]) (x : PlayerId) :
    room2.hasPlayer x = true ↔ (x = p.id ∨ room.hasPlayer x = true) := by
  rw [hasPlayer_iff, hasPlayer_iff, h]
  simp [List.mem_append, or_comm]

theorem hasPlayer_singleton {room : Room} {p : Player} (h : room.players = [p]) (x : PlayerId) :
    room.hasPlayer x = true ↔ x = p.id := by
  rw [hasPlayer_iff, h]
  simp

theorem createRoom_ok {rm : RoomManager} {rid : Nat} {pw : Option String} {cid : PlayerId}
    {cname : String} {mp now : Nat} {rm1 : RoomManager}
    (h : rm.createRoom rid pw cid cname mp now = (none, rm1)) :
    ∃ room, mkRoom rid pw cid cname mp now = .ok room ∧
      mapGet rm.playerToRoom cid = none ∧ mapGet rm.rooms rid = none ∧
      rm1 = { rm with rooms := mapSet rm.rooms rid room,
                      playerToRoom := mapSet rm.playerToRoom cid rid } := by
  unfold RoomManager.createRoom at h
  split_ifs at h with h1 h2 h3 h4
  · simp at h
  · simp at h
  · simp at h
  · simp at h
  · cases hmk : mkRoom rid pw cid cname mp now with
    | error e =>
      rw [hmk] at h
      simp at h
    | ok room =>
      rw [hmk] at h
      refine ⟨room, rfl, ?_, ?_, (congrArg Prod.snd h).symm⟩
      · exact Option.not_isSome_iff_eq_none.mp h2
      · exact Option.not_isSome_iff_eq_none.mp h4

theorem createRoom_err_eq {rm : RoomManager} {rid : Nat} {pw : Option String}
    {cid : PlayerId} {cname : String} {mp now : Nat} {e : GErr} {rm1 : RoomManager}
    (h : rm.createRoom rid pw cid cname mp now = (some e, rm1)) : rm1 = rm := by
  unfold RoomManager.createRoom at h
  split_ifs at h
  · exact (congrArg Prod.snd h).symm
  · exact (congrArg Prod.snd h).symm
  · exact (congrArg Prod.snd h).symm
  · exact (congrArg Prod.snd h).symm
  · cases hmk : mkRoom rid pw cid cname mp now with
    | error e2 =>
      rw [hmk] at h
      exact (congrArg Prod.snd h).symm
    | ok room =>
      rw [hmk] at h
      simp at h

theorem inv_createRoom_registry {rm : RoomManager} (hInv : Inv rm) (rid : Nat)
    (pw : Option String) (cid : PlayerId) (cname : String) (mp now : Nat) :
    Inv (rm.createRoom rid pw cid cname mp now).2 := by
  rcases hc : rm.createRoom rid pw cid cname mp now with ⟨e, rm1⟩
  rcases e with _ | e
  · -- success
    obtain ⟨room, hmk, hpnone, hridnone, rfl⟩ := createRoom_ok hc
    obtain ⟨creator, hcreator, hplayers, hcid, hmax, _, _, _⟩ := mkRoom_ok hmk
    obtain ⟨hcreatorid, hcreatorflag, _⟩ := mkPlayer_some hcreator
    obtain ⟨hndr, hndp, hwf, hcons⟩ := hInv
    have hhas : ∀ x, room.hasPlayer x = true ↔ x = cid := by
      intro x
      rw [hasPlayer_singleton hplayers x, hcreatorid]
    refine ⟨nodup_keysOf_mapSet _ _ _ hndr, nodup_keysOf_mapSet _ _ _ hndp, ?_, ?_⟩
    · intro r rr hgr
      by_cases hr : rid = r
      · subst hr
        rw [mapGet_mapSet_self] at hgr
        obtain rfl := Option.some.inj hgr
        refine ⟨?_, ?_, ?_, ?_, ?_⟩
        · rw [hplayers]; simp
        · rw [hplayers]; simpa using hmax
        · rw [hplayers]; simp
        · rw [hplayers]; simp [List.countP_cons, hcreatorflag]
        · intro p hp hf
          rw [hplayers] at hp
          obtain rfl := List.mem_singleton.mp hp
          rw [hcreatorid, hcid]
      · rw [mapGet_mapSet_ne _ _ _ _ hr] at hgr
        exact hwf _ _ hgr
    · intro p r
      by_cases hp : cid = p
      · subst hp
        rw [mapGet_mapSet_self]
        constructor
        · intro hr
          obtain rfl := Option.some.inj hr
          exact ⟨room, mapGet_mapSet_self _ _ _, (hhas cid).mpr rfl⟩
        · rintro ⟨room', hgr, hhas2⟩
          by_cases hr : rid = r
          · exact congrArg some hr
          · rw [mapGet_mapSet_ne _ _ _ _ hr] at hgr
            exact absurd ((hcons cid r).mpr ⟨room', hgr, hhas2⟩) (by rw [hpnone]; simp)
      · rw [mapGet_mapSet_ne _ _ _ _ hp]
        by_cases hr : rid = r
        · subst hr
          constructor
          · intro hl
            obtain ⟨room2, hgr2, _⟩ := (hcons p rid).mp hl
            rw [hridnone] at hgr2
            cases hgr2
          · rintro ⟨room', hgr, hhas2⟩
            rw [mapGet_mapSet_self] at hgr
            obtain rfl := Option.some.inj hgr
            exact absurd ((hhas p).mp hhas2) (fun he => hp he.symm)
        · rw [mapGet_mapSet_ne _ _ _ _ hr]
          constructor
          · intro hl
            exact (hcons p r).mp hl
          · rintro ⟨room', hgr, hhas2⟩
            exact (hcons p r).mpr ⟨room', hgr, hhas2⟩
  · rw [createRoom_err_eq hc]
    exact hInv

theorem inv_facadeCreateRoom {rm : RoomManager} (hInv : Inv rm) (rid : Nat)
    (pw : Option String) (cid : PlayerId) (cname : String) (mp now : Nat) :
    Inv (facadeCreateRoom rm rid pw cid cname mp now).2 := by
  unfold facadeCreateRoom
  rcases hc : rm.createRoom rid pw cid cname mp now with ⟨e, rm1⟩
  have hInv1 : Inv rm1 := by
    have := inv_createRoom_registry hInv rid pw cid cname mp now
    rwa [hc] at this
  rcases e with _ | e <;> dsimp only
  · rcases hget : mapGet rm1.rooms rid with _ | room <;> dsimp only
    · exact hInv1
    · exact hInv1.updateRoom hget
        (sameMembers_setGame (sameMembers_of_players_eq rfl rfl rfl) _)
  · exact hInv1

theorem joinRoom_ok {rm : RoomManager} {roomId : Nat} {pid : PlayerId} {pname : String}
    {pw : Option String} {now : Nat} {rm1 : RoomManager}
    (h : rm.joinRoom roomId pid pname pw now = (none, rm1)) :
    ∃ room player room2, mapGet rm.playerToRoom pid = none ∧
      mapGet rm.rooms roomId = some room ∧
      mkPlayer pid pname false now = some player ∧
      room.addPlayer player now = .ok room2 ∧
      rm1 = { rm with rooms := mapSet rm.rooms roomId room2,
                      playerToRoom := mapSet rm.playerToRoom pid roomId } := by
  unfold RoomManager.joinRoom at h
  split_ifs at h with h1
  · simp at h
  · cases hp : mapGet rm.playerToRoom pid with
    | some currentRoomId =>
      rw [hp] at h
      dsimp only at h
      split_ifs at h <;> simp at h
    | none =>
      rw [hp] at h
      dsimp only at h
      cases hr : mapGet rm.rooms roomId with
      | none =>
        rw [hr] at h
        simp at h
      | some room =>
        rw [hr] at h
        dsimp only at h
        split_ifs at h with h2
        · cases hmkp : mkPlayer pid pname false now with
          | none =>
            rw [hmkp] at h
            simp at h
          | some player =>
            rw [hmkp] at h
            dsimp only at h
            cases hadd : room.addPlayer player now with
            | error e =>
              rw [hadd] at h
              simp at h
            | ok room2 =>
              rw [hadd] at h
              exact ⟨room, player, room2, rfl, rfl, rfl, hadd,
                (congrArg Prod.snd h).symm⟩
        · simp at h

theorem joinRoom_err_eq {rm : RoomManager} {roomId : Nat} {pid : PlayerId} {pname : String}
    {pw : Option String} {now : Nat} {e : GErr} {rm1 : RoomManager}
    (h : rm.joinRoom roomId pid pname pw now = (some e, rm1)) : rm1 = rm := by
  unfold RoomManager.joinRoom at h
  split_ifs at h with h1
  · exact (congrArg Prod.snd h).symm
  · cases hp : mapGet rm.playerToRoom pid with
    | some currentRoomId =>
      rw [hp] at h
      dsimp only at h
      split_ifs at h <;> exact (congrArg Prod.snd h).symm
    | none =>
      rw [hp] at h
      dsimp only at h
      cases hr : mapGet rm.rooms roomId with
      | none =>
        rw [hr] at h
        exact (congrArg Prod.snd h).symm
      | some room =>
        rw [hr] at h
        dsimp only at h
        split_ifs at h with h2
        · cases hmkp : mkPlayer pid pname false now with
          | none =>
            rw [hmkp] at h
            exact (congrArg Prod.snd h).symm
          | some player =>
            rw [hmkp] at h
            dsimp only at h
            cases hadd : room.addPlayer player now with
            | error e2 =>
              rw [hadd] at h
              exact (congrArg Prod.snd h).symm
            | ok room2 =>
              rw [hadd] at h
              simp at h
        · exact (congrArg Prod.snd h).symm

theorem inv_joinRoom {rm : RoomManager} (hInv : Inv rm) (roomId : Nat) (pid : PlayerId)
    (pname : String) (pw : Option String) (now : Nat) :
    Inv (rm.joinRoom roomId pid pname pw now).2 := by
  rcases hc : rm.joinRoom roomId pid pname pw now with ⟨e, rm1⟩
  rcases e with _ | e
  · obtain ⟨room, player, room2, hpnone, hr, hmkp, hadd, rfl⟩ := joinRoom_ok hc
    obtain ⟨hplayers2, hlt, hnothas, hcid2, hmax2, _, _, _⟩ := addPlayer_ok hadd
    obtain ⟨hplayerid, hplayerflag, _⟩ := mkPlayer_some hmkp
    obtain ⟨hndr, hndp, hwf, hcons⟩ := hInv
    obtain ⟨hnd, hlen, hne, hcount, hflag⟩ := hwf _ _ hr
    have hhas2 : ∀ x, room2.hasPlayer x = true ↔ (x = pid ∨ room.hasPlayer x = true) := by
      intro x
      rw [hasPlayer_append hplayers2 x, hplayerid]
    refine ⟨nodup_keysOf_mapSet _ _ _ hndr, nodup_keysOf_mapSet _ _ _ hndp, ?_, ?_⟩
    · intro r rr hgr
      by_cases hrr : roomId = r
      · subst hrr
        rw [mapGet_mapSet_self] at hgr
        obtain rfl := Option.some.inj hgr
        refine ⟨?_, ?_, ?_, ?_, ?_⟩
        · rw [hplayers2]
          simp only [List.map_append, List.map_cons, List.map_nil]
          rw [List.nodup_append]
          refine ⟨hnd, List.nodup_singleton _, ?_⟩
          intro a ha hb
          rw [List.mem_singleton] at hb
          subst hb
          rw [hplayerid] at ha
          have hnothas2 : room.hasPlayer pid = false := hplayerid ▸ hnothas
          exact absurd ((hasPlayer_iff room pid).mpr ha) (by simp [hnothas2])
        · rw [hplayers2, hmax2]
          simp only [List.length_append, List.length_singleton]
          omega
        · rw [hplayers2]; simp
        · rw [hplayers2, List.countP_append]
          simp [List.countP_cons, hplayerflag, hcount]
        · intro p hp hf
          rw [hplayers2] at hp
          rcases List.mem_append.mp hp with hp | hp
          · rw [hcid2]; exact hflag p hp hf
          · obtain rfl := List.mem_singleton.mp hp
            rw [hplayerflag] at hf
            cases hf
      · rw [mapGet_mapSet_ne _ _ _ _ hrr] at hgr
        exact hwf _ _ hgr
    · intro p r
      by_cases hp : pid = p
      · subst hp
        rw [mapGet_mapSet_self]
        constructor
        · intro hr2
          obtain rfl := Option.some.inj hr2
          exact ⟨room2, mapGet_mapSet_self _ _ _, (hhas2 pid).mpr (Or.inl rfl)⟩
        · rintro ⟨room', hgr, hhas3⟩
          by_cases hrr : roomId = r
          · exact congrArg some hrr
          · rw [mapGet_mapSet_ne _ _ _ _ hrr] at hgr
            exact absurd ((hcons pid r).mpr ⟨room', hgr, hhas3⟩) (by rw [hpnone]; simp)
      · rw [mapGet_mapSet_ne _ _ _ _ hp]
        by_cases hrr : roomId = r
        · subst hrr
          constructor
          · intro hl
            obtain ⟨room', hgr, hhas3⟩ := (hcons p roomId).mp hl
            obtain rfl := Option.some.inj (hr ▸ hgr)
            exact ⟨room2, mapGet_mapSet_self _ _ _, (hhas2 p).mpr (Or.inr hhas3)⟩
          · rintro ⟨room', hgr, hhas3⟩
            rw [mapGet_mapSet_self] at hgr
            obtain rfl := Option.some.inj hgr
            rcases (hhas2 p).mp hhas3 with rfl | hhas4
            · exact absurd rfl hp
            · exact (hcons p roomId).mpr ⟨room, hr, hhas4⟩
        · rw [mapGet_mapSet_ne _ _ _ _ hrr]
          exact hcons p r
  · rw [joinRoom_err_eq hc]
    exact hInv

theorem inv_transferStep {rm : RoomManager} (hInv : Inv rm) (rid : Nat) (ncid : PlayerId)
    (now : Nat) : Inv (transferStep rm rid ncid now) := by
  unfold transferStep
  rcases hget : mapGet rm.rooms rid with _ | room <;> dsimp only
  · exact hInv
  · rcases ht : room.transferOwnership ncid now with e | room1 <;> dsimp only
    · exact hInv
    · obtain ⟨hp, hcid, hmax, hmem, _, _⟩ := transferOwnership_ok ht
      refine hInv.updateRoomCore hget
        (fun hwf => RoomWF_transfer hwf hp hcid hmax hmem) (fun p => ?_)
      apply hasPlayer_eq_of_ids
      rw [hp, map_id_setCreatorFirst, map_id_clearFirstCreator]

-- ### Leave-room lemmas

theorem map_id_eraseP (l : List Player) (pid : PlayerId) :
    (l.eraseP (fun q => q.id = pid)).map Player.id = (l.map Player.id).erase pid := by
  induction l with
  | nil => rfl
  | cons q qs ih =>
    by_cases hq : q.id = pid
    · simp [List.eraseP_cons, hq, List.erase_cons]
    · simp [List.eraseP_cons, hq, List.erase_cons, ih]

theorem countP_eraseP_unflagged {l : List Player} {pid : PlayerId}
    (hq : ∀ q ∈ l, q.id = pid → q.isCreator = false) :
    (l.eraseP (fun q => q.id = pid)).countP (fun p => p.isCreator)
      = l.countP (fun p => p.isCreator) := by
  induction l with
  | nil => rfl
  | cons q qs ih =>
    by_cases hqe : q.id = pid
    · have hfl : q.isCreator = false := hq q (List.mem_cons_self _ _) hqe
      simp [List.eraseP_cons, hqe, List.countP_cons, hfl]
    · have ih2 := ih (fun q2 hq2 he => hq q2 (List.mem_cons_of_mem _ hq2) he)
      simp [List.eraseP_cons, hqe, List.countP_cons, ih2]

theorem clearFirstCreator_id_of_unflagged {l : List Player}
    (h : ∀ p ∈ l, p.isCreator = false) : clearFirstCreator l = l := by
  induction l with
  | nil => rfl
  | cons q qs ih =>
    have hfl : q.isCreator = false := h q (List.mem_cons_self _ _)
    simp [clearFirstCreator, hfl, ih (fun p hp => h p (List.mem_cons_of_mem _ hp))]

theorem erase_eq_nil_singleton {l : List PlayerId} {pid : PlayerId}
    (hmem : pid ∈ l) (hnil : l.erase pid = []) : l = [pid] := by
  cases l with
  | nil => cases hmem
  | cons a as =>
    by_cases ha : a = pid
    · subst ha
      rw [List.erase_cons_head] at hnil
      rw [hnil]
    · rw [List.erase_cons_tail (by simpa using ha)] at hnil
      cases hnil

theorem leaveCreatorFix_false_eq (room1 : Room) (now : Nat) :
    leaveCreatorFix room1 false now = room1 := by
  unfold leaveCreatorFix
  simp

theorem isEmpty_false_iff (room : Room) : room.isEmpty = false ↔ room.players ≠ [] := by
  unfold Room.isEmpty
  rcases h : room.players with _ | ⟨a, as⟩ <;> simp

/-- The creator fix after the unique creator left: all remaining flags are
down, so ownership lands exactly on the head. -/
theorem leaveCreatorFix_wf_true {room1 : Room} {now : Nat}
    (hnd : (room1.players.map Player.id).Nodup)
    (hlen : room1.players.length ≤ room1.maxPlayers)
    (hne : room1.players ≠ [])
    (hflags : ∀ p ∈ room1.players, p.isCreator = false) :
    RoomWF (leaveCreatorFix room1 true now) ∧
    (leaveCreatorFix room1 true now).players.map Player.id
      = room1.players.map Player.id ∧
    (leaveCreatorFix room1 true now).maxPlayers = room1.maxPlayers ∧
    ∃ p0 rest, room1.players = p0 :: rest ∧
      (leaveCreatorFix room1 true now).creatorId = p0.id ∧
      (leaveCreatorFix room1 true now).players = { p0 with isCreator := true } :: rest := by
  have hempty : room1.isEmpty = false := (isEmpty_false_iff room1).mpr hne
  obtain ⟨p0, rest, hl⟩ := List.exists_cons_of_ne_nil hne
  · have hh : room1.players.head? = some p0 := by rw [hl]; rfl
    have hp0mem : p0 ∈ room1.players := by rw [hl]; exact List.mem_cons_self _ _
    obtain ⟨q, hq⟩ := hasPlayer_getPlayer
      ((hasPlayer_iff _ _).mpr (List.mem_map.mpr ⟨p0, hp0mem, rfl⟩))
    have hstep : leaveCreatorFix room1 true now
        = { room1 with
              players := setCreatorFirst p0.id (clearFirstCreator room1.players),
              creatorId := p0.id,
              lastActivity := now } := by
      unfold leaveCreatorFix
      rw [if_pos (by simp [hempty]), hh]
      dsimp only
      unfold Room.transferOwnership
      rw [hq]
    have hclear : clearFirstCreator room1.players = room1.players :=
      clearFirstCreator_id_of_unflagged hflags
    have hzero : room1.players.countP (fun p => p.isCreator) = 0 :=
      List.countP_eq_zero.mpr (fun p hp => by simp [hflags p hp])
    obtain ⟨hc1, hc2⟩ := setCreatorFirst_props p0.id room1.players
      (List.mem_map.mpr ⟨p0, hp0mem, rfl⟩) hzero
    have hids : (setCreatorFirst p0.id room1.players).map Player.id
        = room1.players.map Player.id := map_id_setCreatorFirst _ _
    have hsetshape : setCreatorFirst p0.id room1.players
        = { p0 with isCreator := true } :: rest := by
      rw [hl]
      unfold setCreatorFirst
      rw [if_pos rfl]
    refine ⟨⟨?_, ?_, ?_, ?_, ?_⟩, ?_, ?_, p0, rest, hl, ?_, ?_⟩
    · rw [hstep]
      dsimp only
      rw [hclear, hids]
      exact hnd
    · rw [hstep]
      dsimp only
      rw [hclear]
      have := congrArg List.length hids
      simp only [List.length_map] at this
      rw [this]
      exact hlen
    · rw [hstep]
      dsimp only
      rw [hclear, hsetshape]
      simp
    · rw [hstep]
      dsimp only
      rw [hclear]
      exact hc1
    · intro p hp hf
      rw [hstep] at hp ⊢
      dsimp only at hp ⊢
      rw [hclear] at hp
      exact hc2 p hp hf
    · rw [hstep]
      dsimp only
      rw [hclear, hids]
    · rw [hstep]
    · rw [hstep]
    · rw [hstep]
      dsimp only
      rw [hclear, hsetshape]

theorem inv_leaveRoom {rm : RoomManager} (hInv : Inv rm) (pid : PlayerId) (now : Nat) :
    Inv (rm.leaveRoom pid now).rm := by
  obtain ⟨hndr, hndp, hwf, hcons⟩ := hInv
  unfold RoomManager.leaveRoom
  rcases hp : mapGet rm.playerToRoom pid with _ | rid <;> dsimp only
  · exact ⟨hndr, hndp, hwf, hcons⟩
  · rcases hr : mapGet rm.rooms rid with _ | room <;> dsimp only
    · obtain ⟨room0, hr0, _⟩ := (hcons pid rid).mp hp
      rw [hr] at hr0
      cases hr0
    · have hhasp : room.hasPlayer pid = true := by
        obtain ⟨room0, hr0, hh⟩ := (hcons pid rid).mp hp
        rw [hr] at hr0
        obtain rfl := Option.some.inj hr0
        exact hh
      obtain ⟨q, hq⟩ := hasPlayer_getPlayer hhasp
      unfold Room.removePlayer
      rw [hq]
      dsimp only
      obtain ⟨hnd, hlen, hne, hcount, hflag⟩ := hwf rid room hr
      have hpidmem : pid ∈ room.players.map Player.id := (hasPlayer_iff _ _).mp hhasp
      -- the stripped room
      set room1 : Room := { room with
        players := room.players.eraseP (fun q => q.id = pid), lastActivity := now }
        with hroom1
      have hids1 : room1.players.map Player.id = (room.players.map Player.id).erase pid :=
        map_id_eraseP _ _
      have hnd1 : (room1.players.map Player.id).Nodup := by
        rw [hids1]
        exact hnd.erase pid
      have hlen1 : room1.players.length ≤ room1.maxPlayers := by
        have h1 := congrArg List.length hids1
        simp only [List.length_map] at h1
        have h2 : ((room.players.map Player.id).erase pid).length
            ≤ (room.players.map Player.id).length := (List.erase_sublist _ _).length_le
        simp only [List.length_map] at h2
        calc room1.players.length = _ := h1
          _ ≤ room.players.length := h2
          _ ≤ room.maxPlayers := hlen
      have hmem1 : ∀ x, x ∈ room1.players.map Player.id ↔
          x ≠ pid ∧ x ∈ room.players.map Player.id := by
        intro x
        rw [hids1]
        exact hnd.mem_erase_iff
      have hhas1 : ∀ x, room1.hasPlayer x = true ↔
          (x ≠ pid ∧ room.hasPlayer x = true) := by
        intro x
        rw [hasPlayer_iff, hmem1 x, hasPlayer_iff]
      -- creator case analysis
      rcases hwc : room.isCreator pid with _ | _
      · -- non-creator leaves
        have hcidne : room.creatorId ≠ pid := by
          unfold Room.isCreator at hwc
          simpa using hwc
        rw [leaveCreatorFix_false_eq]
        have hcount1 : room1.players.countP (fun p => p.isCreator) = 1 := by
          rw [hroom1]
          dsimp only
          rw [countP_eraseP_unflagged, hcount]
          intro q2 hq2 hqe
          rcases hb : q2.isCreator with _ | _
          · rfl
          · exact absurd (hqe ▸ hflag q2 hq2 hb).symm hcidne
        have hwf1 : room1.isEmpty = false → RoomWF room1 := by
          intro hef
          refine ⟨hnd1, hlen1, (isEmpty_false_iff room1).mp hef, hcount1, ?_⟩
          intro p hpm hf
          exact hflag p ((List.eraseP_sublist _).mem hpm) hf
        split_ifs with hdel
        · -- room deleted: room1 must be empty
          have hids_nil : room1.players = [] := by
            unfold Room.isEmpty at hdel
            simpa [List.length_eq_zero] using hdel
          have honly : room.players.map Player.id = [pid] := by
            apply erase_eq_nil_singleton hpidmem
            rw [← hids1, hids_nil]
            rfl
          have hhasonly : ∀ x, room.hasPlayer x = true ↔ x = pid := by
            intro x
            rw [hasPlayer_iff, honly]
            simp
          refine ⟨nodup_keysOf_mapDel _ _ hndr, nodup_keysOf_mapDel _ _ hndp, ?_, ?_⟩
          · intro r rr hgr
            by_cases hrr : rid = r
            · subst hrr
              rw [mapGet_mapDel_self _ _ hndr] at hgr
              cases hgr
            · rw [mapGet_mapDel_ne _ _ _ hrr] at hgr
              exact hwf _ _ hgr
          · intro p r
            by_cases hpp : pid = p
            · subst hpp
              rw [mapGet_mapDel_self _ _ hndp]
              constructor
              · intro hl
                cases hl
              · rintro ⟨room', hgr, hhase⟩
                by_cases hrr : rid = r
                · subst hrr
                  rw [mapGet_mapDel_self _ _ hndr] at hgr
                  cases hgr
                · rw [mapGet_mapDel_ne _ _ _ hrr] at hgr
                  have := (hcons pid r).mpr ⟨room', hgr, hhase⟩
                  rw [hp] at this
                  exact absurd (Option.some.inj this) hrr
            · rw [mapGet_mapDel_ne _ _ _ hpp]
              by_cases hrr : rid = r
              · subst hrr
                constructor
                · intro hl
                  obtain ⟨room', hgr', hhase⟩ := (hcons p rid).mp hl
                  rw [hr] at hgr'
                  obtain rfl := Option.some.inj hgr'
                  exact absurd ((hhasonly p).mp hhase) (fun he => hpp he.symm)
                · rintro ⟨room', hgr, hhase⟩
                  rw [mapGet_mapDel_self _ _ hndr] at hgr
                  cases hgr
              · rw [mapGet_mapDel_ne _ _ _ hrr]
                exact hcons p r
        · -- room kept
          have hwf1' := hwf1 (by
            rcases hb : room1.isEmpty with _ | _
            · rfl
            · exact absurd hb hdel)
          refine ⟨nodup_keysOf_mapSet _ _ _ hndr, nodup_keysOf_mapDel _ _ hndp, ?_, ?_⟩
          · intro r rr hgr
            by_cases hrr : rid = r
            · subst hrr
              rw [mapGet_mapSet_self] at hgr
              obtain rfl := Option.some.inj hgr
              exact hwf1'
            · rw [mapGet_mapSet_ne _ _ _ _ hrr] at hgr
              exact hwf _ _ hgr
          · intro p r
            by_cases hpp : pid = p
            · subst hpp
              rw [mapGet_mapDel_self _ _ hndp]
              constructor
              · intro hl
                cases hl
              · rintro ⟨room', hgr, hhase⟩
                by_cases hrr : rid = r
                · subst hrr
                  rw [mapGet_mapSet_self] at hgr
                  obtain rfl := Option.some.inj hgr
                  exact absurd ((hhas1 pid).mp hhase).1 (fun he => he rfl)
                · rw [mapGet_mapSet_ne _ _ _ _ hrr] at hgr
                  have := (hcons pid r).mpr ⟨room', hgr, hhase⟩
                  rw [hp] at this
                  exact absurd (Option.some.inj this) hrr
            · rw [mapGet_mapDel_ne _ _ _ hpp]
              by_cases hrr : rid = r
              · subst hrr
                constructor
                · intro hl
                  obtain ⟨room', hgr', hhase⟩ := (hcons p rid).mp hl
                  rw [hr] at hgr'
                  obtain rfl := Option.some.inj hgr'
                  exact ⟨room1, mapGet_mapSet_self _ _ _,
                    (hhas1 p).mpr ⟨fun he => hpp he.symm, hhase⟩⟩
                · rintro ⟨room', hgr, hhase⟩
                  rw [mapGet_mapSet_self] at hgr
                  obtain rfl := Option.some.inj hgr
                  exact (hcons p rid).mpr ⟨room, hr, ((hhas1 p).mp hhase).2⟩
              · rw [mapGet_mapSet_ne _ _ _ _ hrr]
                exact hcons p r
      · -- the creator leaves
        have hcid : room.creatorId = pid := by
          unfold Room.isCreator at hwc
          simpa using hwc
        have hflags1 : ∀ p2 ∈ room1.players, p2.isCreator = false := by
          intro p2 hp2
          rcases hb : p2.isCreator with _ | _
          · rfl
          · exfalso
            have hpid2 : p2.id = pid := by
              rw [← hcid]
              exact hflag p2 ((List.eraseP_sublist _).mem hp2) hb
            have : p2.id ∈ room1.players.map Player.id :=
              List.mem_map.mpr ⟨p2, hp2, rfl⟩
            rw [hmem1 p2.id] at this
            exact this.1 hpid2
        by_cases hef : room1.players = []
        · -- room empties: creator fix is skipped, room deleted
          have hdel : room1.isEmpty = true := by
            unfold Room.isEmpty
            rw [hef]
            rfl
          have hfixeq : leaveCreatorFix room1 true now = room1 := by
            unfold leaveCreatorFix
            rw [if_neg (by rw [hdel]; simp)]
          rw [hfixeq]
          rw [if_pos hdel]
          dsimp only
          have honly : room.players.map Player.id = [pid] := by
            apply erase_eq_nil_singleton hpidmem
            rw [← hids1, hef]
            rfl
          have hhasonly : ∀ x, room.hasPlayer x = true ↔ x = pid := by
            intro x
            rw [hasPlayer_iff, honly]
            simp
          refine ⟨nodup_keysOf_mapDel _ _ hndr, nodup_keysOf_mapDel _ _ hndp, ?_, ?_⟩
          · intro r rr hgr
            by_cases hrr : rid = r
            · subst hrr
              rw [mapGet_mapDel_self _ _ hndr] at hgr
              cases hgr
            · rw [mapGet_mapDel_ne _ _ _ hrr] at hgr
              exact hwf _ _ hgr
          · intro p r
            by_cases hpp : pid = p
            · subst hpp
              rw [mapGet_mapDel_self _ _ hndp]
              constructor
              · intro hl
                cases hl
              · rintro ⟨room', hgr, hhase⟩
                by_cases hrr : rid = r
                · subst hrr
                  rw [mapGet_mapDel_self _ _ hndr] at hgr
                  cases hgr
                · rw [mapGet_mapDel_ne _ _ _ hrr] at hgr
                  have := (hcons pid r).mpr ⟨room', hgr, hhase⟩
                  rw [hp] at this
                  exact absurd (Option.some.inj this) hrr
            · rw [mapGet_mapDel_ne _ _ _ hpp]
              by_cases hrr : rid = r
              · subst hrr
                constructor
                · intro hl
                  obtain ⟨room', hgr', hhase⟩ := (hcons p rid).mp hl
                  rw [hr] at hgr'
                  obtain rfl := Option.some.inj hgr'
                  exact absurd ((hhasonly p).mp hhase) (fun he => hpp he.symm)
                · rintro ⟨room', hgr, hhase⟩
                  rw [mapGet_mapDel_self _ _ hndr] at hgr
                  cases hgr
              · rw [mapGet_mapDel_ne _ _ _ hrr]
                exact hcons p r
        · -- players remain: ownership transfers to the new head
          obtain ⟨hwf2, hids2, _, p0, rest, hl1, hcid2, hshape2⟩ :=
            leaveCreatorFix_wf_true hnd1 hlen1 hef hflags1
          have hne2 : (leaveCreatorFix room1 true now).isEmpty = false := by
            rw [isEmpty_false_iff, hshape2]
            simp
          rw [if_neg (by simp [hne2])]
          dsimp only
          have hhas2 : ∀ x, (leaveCreatorFix room1 true now).hasPlayer x
              = room1.hasPlayer x := hasPlayer_eq_of_ids hids2
          refine ⟨nodup_keysOf_mapSet _ _ _ hndr, nodup_keysOf_mapDel _ _ hndp, ?_, ?_⟩
          · intro r rr hgr
            by_cases hrr : rid = r
            · subst hrr
              rw [mapGet_mapSet_self] at hgr
              obtain rfl := Option.some.inj hgr
              exact hwf2
            · rw [mapGet_mapSet_ne _ _ _ _ hrr] at hgr
              exact hwf _ _ hgr
          · intro p r
            by_cases hpp : pid = p
            · subst hpp
              rw [mapGet_mapDel_self _ _ hndp]
              constructor
              · intro hl
                cases hl
              · rintro ⟨room', hgr, hhase⟩
                by_cases hrr : rid = r
                · subst hrr
                  rw [mapGet_mapSet_self] at hgr
                  obtain rfl := Option.some.inj hgr
                  rw [hhas2 pid] at hhase
                  exact absurd ((hhas1 pid).mp hhase).1 (fun he => he rfl)
                · rw [mapGet_mapSet_ne _ _ _ _ hrr] at hgr
                  have := (hcons pid r).mpr ⟨room', hgr, hhase⟩
                  rw [hp] at this
                  exact absurd (Option.some.inj this) hrr
            · rw [mapGet_mapDel_ne _ _ _ hpp]
              by_cases hrr : rid = r
              · subst hrr
                constructor
                · intro hl
                  obtain ⟨room', hgr', hhase⟩ := (hcons p rid).mp hl
                  rw [hr] at hgr'
                  obtain rfl := Option.some.inj hgr'
                  refine ⟨leaveCreatorFix room1 true now, mapGet_mapSet_self _ _ _, ?_⟩
                  rw [hhas2 p]
                  exact (hhas1 p).mpr ⟨fun he => hpp he.symm, hhase⟩
                · rintro ⟨room', hgr, hhase⟩
                  rw [mapGet_mapSet_self] at hgr
                  obtain rfl := Option.some.inj hgr
                  rw [hhas2 p] at hhase
                  exact (hcons p rid).mpr ⟨room, hr, ((hhas1 p).mp hhase).2⟩
              · rw [mapGet_mapSet_ne _ _ _ _ hrr]
                exact hcons p r

theorem inv_facadeLeaveRoom {rm : RoomManager} (hInv : Inv rm) (pid : PlayerId)
    (now : Nat) : Inv (facadeLeaveRoom rm pid now).2 := by
  unfold facadeLeaveRoom
  have hInvO := inv_leaveRoom hInv pid now
  rcases ho : rm.leaveRoom pid now with ⟨err, rmO, leftId, deleted, wasC⟩
  rw [ho] at hInvO
  dsimp only at hInvO ⊢
  rcases err with _ | e <;> dsimp only
  · split_ifs with hdel
    · exact hInvO
    · rcases leftId with _ | rid <;> dsimp only
      · exact hInvO
      · rcases hgr : mapGet rmO.rooms rid with _ | room <;> dsimp only
        · exact hInvO
        · rcases hg : room.game with _ | g <;> dsimp only
          · exact hInvO
          · split_ifs with hforce
            · exact hInvO.updateRoom hgr
                (sameMembers_setGame (sameMembers_forceEndGame g room now) _)
            · exact hInvO
  · exact hInvO

-- ### Cleanup lemmas

theorem mapGet_foldl_mapDel (ps : List Player) (m : List (PlayerId × Nat)) (x : PlayerId)
    (hnd : (keysOf m).Nodup) :
    mapGet (ps.foldl (fun acc p => mapDel acc p.id) m) x
      = if x ∈ ps.map Player.id then none else mapGet m x := by
  induction ps generalizing m with
  | nil => simp
  | cons p ps' ih =>
    rw [List.foldl_cons]
    rw [ih (mapDel m p.id) (nodup_keysOf_mapDel _ _ hnd)]
    rw [List.map_cons]
    by_cases hx : x = p.id
    · have hrhs : (if x ∈ p.id :: List.map Player.id ps' then none else mapGet m x)
          = (none : Option Nat) := if_pos (by rw [hx]; exact List.mem_cons_self _ _)
      rw [hrhs]
      by_cases hmem : x ∈ List.map Player.id ps'
      · rw [if_pos hmem]
      · rw [if_neg hmem, hx, mapGet_mapDel_self _ _ hnd]
    · have hxne : p.id ≠ x := fun he => hx he.symm
      rw [mapGet_mapDel_ne _ _ _ hxne]
      by_cases hmem : x ∈ List.map Player.id ps'
      · rw [if_pos hmem, if_pos (List.mem_cons_of_mem _ hmem)]
      · rw [if_neg hmem, if_neg (fun hc => ?_)]
        rcases List.mem_cons.mp hc with hc2 | hc2
        · exact hx hc2
        · exact hmem hc2

theorem nodup_foldl_mapDel (ps : List Player) (m : List (PlayerId × Nat))
    (hnd : (keysOf m).Nodup) :
    (keysOf (ps.foldl (fun acc p => mapDel acc p.id) m)).Nodup := by
  induction ps generalizing m with
  | nil => exact hnd
  | cons p ps' ih =>
    rw [List.foldl_cons]
    exact ih _ (nodup_keysOf_mapDel _ _ hnd)

theorem inv_removeStaleRoom {rm : RoomManager} (hInv : Inv rm) (rid : Nat) :
    Inv (removeStaleRoom rm rid) := by
  obtain ⟨hndr, hndp, hwf, hcons⟩ := hInv
  unfold removeStaleRoom
  rcases hget : mapGet rm.rooms rid with _ | room <;> dsimp only
  · exact ⟨hndr, hndp, hwf, hcons⟩
  · refine ⟨nodup_keysOf_mapDel _ _ hndr, nodup_foldl_mapDel _ _ hndp, ?_, ?_⟩
    · intro r rr hgr
      by_cases hrr : rid = r
      · subst hrr
        rw [mapGet_mapDel_self _ _ hndr] at hgr
        cases hgr
      · rw [mapGet_mapDel_ne _ _ _ hrr] at hgr
        exact hwf _ _ hgr
    · intro p r
      rw [mapGet_foldl_mapDel _ _ _ hndp]
      by_cases hmem : p ∈ room.players.map Player.id
      · rw [if_pos hmem]
        constructor
        · intro hl
          cases hl
        · rintro ⟨room', hgr, hhase⟩
          by_cases hrr : rid = r
          · subst hrr
            rw [mapGet_mapDel_self _ _ hndr] at hgr
            cases hgr
          · rw [mapGet_mapDel_ne _ _ _ hrr] at hgr
            have h1 := (hcons p r).mpr ⟨room', hgr, hhase⟩
            have h2 := (hcons p rid).mpr ⟨room, hget, (hasPlayer_iff _ _).mpr hmem⟩
            rw [h2] at h1
            exact absurd (Option.some.inj h1) hrr
      · rw [if_neg hmem]
        by_cases hrr : rid = r
        · subst hrr
          constructor
          · intro hl
            obtain ⟨room', hgr', hhase⟩ := (hcons p rid).mp hl
            rw [hget] at hgr'
            obtain rfl := Option.some.inj hgr'
            exact absurd ((hasPlayer_iff _ _).mp hhase) hmem
          · rintro ⟨room', hgr, hhase⟩
            rw [mapGet_mapDel_self _ _ hndr] at hgr
            cases hgr
        · rw [mapGet_mapDel_ne _ _ _ hrr]
          exact hcons p r

theorem inv_cleanup {rm : RoomManager} (hInv : Inv rm) (now : Nat) :
    Inv (rm.cleanupStaleRooms now) := by
  unfold RoomManager.cleanupStaleRooms
  have hgen : ∀ (ids : List Nat) (rm0 : RoomManager), Inv rm0 →
      Inv (ids.foldl removeStaleRoom rm0) := by
    intro ids
    induction ids with
    | nil => intro rm0 h; exact h
    | cons i is ih =>
      intro rm0 h
      rw [List.foldl_cons]
      exact ih _ (inv_removeStaleRoom h i)
  exact hgen _ _ hInv

-- ### The inductive invariant holds on all reachable states

theorem step_inv {rm rm' : RoomManager} (hstep : Step rm rm') (hInv : Inv rm) : Inv rm' := by
  cases hstep with
  | create roomId password creatorId creatorName maxPlayers now =>
    exact inv_facadeCreateRoom hInv roomId password creatorId creatorName maxPlayers now
  | join roomId pid pname password now =>
    exact inv_joinRoom hInv roomId pid pname password now
  | leave pid now =>
    exact inv_facadeLeaveRoom hInv pid now
  | startG pid =>
    rw [facadeStartGame_rm]
    exact hInv
  | fireStart rid js now =>
    exact inv_timerStep hInv (fun g room => sameMembers_actuallyStartGame g room js now)
  | guess pid target now =>
    exact inv_facadeMakeGuess hInv pid target now
  | fireTimeout rid now =>
    exact inv_timerStep hInv (fun g room => sameMembers_handleRoundTimeout g room now)
  | fireNextRound rid js now =>
    exact inv_timerStep hInv (fun g room => sameMembers_actuallyStartNextRound g room js now)
  | manualNext pid js now =>
    exact inv_facadeNextRound hInv pid js now
  | playAgain pid accepted now =>
    exact inv_facadePlayAgain hInv pid accepted now
  | transfer rid newCid now =>
    exact inv_transferStep hInv rid newCid now
  | cleanup now =>
    exact inv_cleanup hInv now

theorem inv_initRM : Inv initRM := by
  refine ⟨List.nodup_nil, List.nodup_nil, ?_, ?_⟩
  · intro r room hgr
    cases hgr
  · intro p r
    constructor
    · intro hl
      cases hl
    · rintro ⟨room, hgr, _⟩
      cases hgr

theorem reachable_inv {rm : RoomManager} (h : Reachable rm) : Inv rm := by
  induction h with
  | refl => exact inv_initRM
  | tail _ hstep ih => exact step_inv hstep ih

-- ### C6 / C7: registry invariants

/-- **C7.** In every reachable registry state the two maps are mutually
consistent: `playerToRoom` sends `p` to `r` exactly when the room stored at
`r` contains `p`; moreover `createRoom`, `joinRoom`, `leaveRoom` and the
stale-room cleanup each preserve this consistency. -/
theorem claim_C7_map_consistency (rm : RoomManager) (h : Reachable rm) :
    Consistent rm ∧
    (∀ rid pw cid cname mp now,
      Consistent (facadeCreateRoom rm rid pw cid cname mp now).2) ∧
    (∀ rid pid pname pw now, Consistent (rm.joinRoom rid pid pname pw now).2) ∧
    (∀ pid now, Consistent (rm.leaveRoom pid now).rm) ∧
    (∀ now, Consistent (rm.cleanupStaleRooms now)) := by
  have hInv := reachable_inv h
  refine ⟨hInv.2.2.2, ?_, ?_, ?_, ?_⟩
  · intro rid pw cid cname mp now
    exact (inv_facadeCreateRoom hInv rid pw cid cname mp now).2.2.2
  · intro rid pid pname pw now
    exact (inv_joinRoom hInv rid pid pname pw now).2.2.2
  · intro pid now
    exact (inv_leaveRoom hInv pid now).2.2.2
  · intro now
    exact (inv_cleanup hInv now).2.2.2

/-- Witness for C7 at the initial registry state. -/
theorem claim_C7_witness : Reachable initRM ∧ Consistent initRM := by
  have h := claim_C7_map_consistency initRM Relation.ReflTransGen.refl
  exact ⟨Relation.ReflTransGen.refl, h.1⟩

/-- **C6.** Every room in a reachable registry state satisfies
`0 ≤ players.length ≤ maxPlayers`, and whenever the room is non-empty there
is exactly one `isCreator` flag set, held by the player whose id is the room's
`creatorId`.  (The step relation includes `createRoom`, `joinRoom`,
`leaveRoom` and direct `transferOwnership`, as well as every game-state
transition.) -/
theorem claim_C6_room_invariants (rm : RoomManager) (h : Reachable rm) :
    ∀ rid room, mapGet rm.rooms rid = some room →
      (0 ≤ room.players.length ∧ room.players.length ≤ room.maxPlayers) ∧
      (0 < room.players.length →
        room.players.countP (fun p => p.isCreator) = 1 ∧
        ∀ p ∈ room.players, p.isCreator = true → p.id = room.creatorId) := by
  intro rid room hget
  obtain ⟨_, hlen, _, hcount, hflag⟩ := (reachable_inv h).2.2.1 rid room hget
  exact ⟨⟨Nat.zero_le _, hlen⟩, fun _ => ⟨hcount, hflag⟩⟩

/-- Witness for C6: a freshly created room in a reachable state. -/
theorem claim_C6_witness :
    Reachable (facadeCreateRoom initRM 1 none 10 "alice" 4 0).2 ∧
    (∀ rid room,
      mapGet (facadeCreateRoom initRM 1 none 10 "alice" 4 0).2.rooms rid = some room →
      (0 ≤ room.players.length ∧ room.players.length ≤ room.maxPlayers) ∧
      (0 < room.players.length →
        room.players.countP (fun p => p.isCreator) = 1 ∧
        ∀ p ∈ room.players, p.isCreator = true → p.id = room.creatorId)) := by
  have hreach : Reachable (facadeCreateRoom initRM 1 none 10 "alice" 4 0).2 :=
    Relation.ReflTransGen.tail Relation.ReflTransGen.refl
      (Step.create initRM 1 none 10 "alice" 4 0)
  exact ⟨hreach, claim_C6_room_invariants _ hreach⟩

-- ### C10: error atomicity

theorem startGame_unchanged (g : GameSession) (room : Room) : (startGame g room).2 = g := by
  unfold startGame
  split_ifs <;> rfl

theorem makeGuess_err_unchanged {g : GameSession} {room : Room} {mid tid : PlayerId}
    {now : Nat} {e : GErr} (h : (makeGuess g room mid tid now).1 = some e) :
    (makeGuess g room mid tid now).2 = (g, room) := by
  unfold makeGuess at h ⊢
  split_ifs at h ⊢ <;> first | rfl | simp at h

theorem handlePlayAgain_err_unchanged {g : GameSession} {room : Room} {pid : PlayerId}
    {acc : Bool} {now : Nat} {e : GErr}
    (h : (handlePlayAgainResponse g room pid acc now).1 = some e) :
    (handlePlayAgainResponse g room pid acc now).2 = (g, room) := by
  unfold handlePlayAgainResponse at h ⊢
  split_ifs at h ⊢ <;> first | rfl | simp at h

theorem leaveRoom_err_eq {rm : RoomManager} (hInv : Inv rm) {pid : PlayerId} {now : Nat}
    {e : GErr} (h : (rm.leaveRoom pid now).err = some e) :
    (rm.leaveRoom pid now).rm = rm := by
  obtain ⟨hndr, hndp, hwf, hcons⟩ := hInv
  unfold RoomManager.leaveRoom at h ⊢
  rcases hp : mapGet rm.playerToRoom pid with _ | rid
  · rfl
  · rw [hp] at h
    dsimp only at h ⊢
    rcases hr : mapGet rm.rooms rid with _ | room
    · obtain ⟨room0, hr0, _⟩ := (hcons pid rid).mp hp
      rw [hr] at hr0
      cases hr0
    · rw [hr] at h
      dsimp only at h ⊢
      rcases hrm : room.removePlayer pid now with e2 | pr
      · rfl
      · rw [hrm] at h
        dsimp only at h
        obtain ⟨q, room1⟩ := pr
        dsimp only at h
        split_ifs at h <;> cases h

theorem facadeStartGame_err_eq {rm : RoomManager} {pid : PlayerId} {e : GErr}
    {rm' : RoomManager} (h : facadeStartGame rm pid = (some e, rm')) : rm' = rm := by
  have := facadeStartGame_rm rm pid
  rw [h] at this
  exact this

theorem facadeMakeGuess_err_eq {rm : RoomManager} {pid tgt : PlayerId} {now : Nat}
    {e : GErr} {rm' : RoomManager} (h : facadeMakeGuess rm pid tgt now = (some e, rm')) :
    rm' = rm := by
  unfold facadeMakeGuess at h
  rcases hget : rm.getRoomByPlayerId pid with _ | ⟨rid, room⟩
  · rw [hget] at h
    exact (congrArg Prod.snd h).symm
  · rw [hget] at h
    dsimp only at h
    rcases hg : room.game with _ | g
    · rw [hg] at h
      exact (congrArg Prod.snd h).symm
    · rw [hg] at h
      dsimp only at h
      rcases hmk : makeGuess g room pid tgt now with ⟨e2, g1, room1⟩
      rw [hmk] at h
      rcases e2 with _ | e2
      · simp at h
      · exact (congrArg Prod.snd h).symm

theorem facadePlayAgain_err_eq {rm : RoomManager} {pid : PlayerId} {acc : Bool} {now : Nat}
    {e : GErr} {rm' : RoomManager} (h : facadePlayAgain rm pid acc now = (some e, rm')) :
    rm' = rm := by
  unfold facadePlayAgain at h
  rcases hget : rm.getRoomByPlayerId pid with _ | ⟨rid, room⟩
  · rw [hget] at h
    exact (congrArg Prod.snd h).symm
  · rw [hget] at h
    dsimp only at h
    rcases hg : room.game with _ | g
    · rw [hg] at h
      exact (congrArg Prod.snd h).symm
    · rw [hg] at h
      dsimp only at h
      rcases hpa : handlePlayAgainResponse g room pid acc now with ⟨e2, g1, room1⟩
      rw [hpa] at h
      rcases e2 with _ | e2
      · dsimp only at h
        split_ifs at h <;> simp at h
      · exact (congrArg Prod.snd h).symm

/-- **C10.** Error atomicity at the operation boundary: on every reachable
registry state, whenever `createRoom`, `joinRoom`, `leaveRoom`, `startGame`,
`makeGuess` or `handlePlayAgainResponse` reports an error, the registry maps,
the rooms and the attached game sessions are exactly as before the call (the
facade-level result equals the input registry, and the session-level
operations return their inputs unchanged). -/
theorem claim_C10_error_atomicity (rm : RoomManager) (h : Reachable rm) :
    (∀ rid pw cid cname mp now e rm',
      rm.createRoom rid pw cid cname mp now = (some e, rm') → rm' = rm) ∧
    (∀ rid pid pname pw now e rm',
      rm.joinRoom rid pid pname pw now = (some e, rm') → rm' = rm) ∧
    (∀ pid now e, (rm.leaveRoom pid now).err = some e → (rm.leaveRoom pid now).rm = rm) ∧
    (∀ pid e rm', facadeStartGame rm pid = (some e, rm') → rm' = rm) ∧
    (∀ pid tgt now e rm', facadeMakeGuess rm pid tgt now = (some e, rm') → rm' = rm) ∧
    (∀ pid acc now e rm', facadePlayAgain rm pid acc now = (some e, rm') → rm' = rm) ∧
    (∀ g room, (startGame g room).2 = g) ∧
    (∀ g room mid tid now e, (makeGuess g room mid tid now).1 = some e →
      (makeGuess g room mid tid now).2 = (g, room)) ∧
    (∀ g room pid acc now e, (handlePlayAgainResponse g room pid acc now).1 = some e →
      (handlePlayAgainResponse g room pid acc now).2 = (g, room)) := by
  have hInv := reachable_inv h
  refine ⟨?_, ?_, ?_, ?_, ?_, ?_, ?_, ?_, ?_⟩
  · intro rid pw cid cname mp now e rm' hc
    exact createRoom_err_eq hc
  · intro rid pid pname pw now e rm' hc
    exact joinRoom_err_eq hc
  · intro pid now e hc
    exact leaveRoom_err_eq hInv hc
  · intro pid e rm' hc
    exact facadeStartGame_err_eq hc
  · intro pid tgt now e rm' hc
    exact facadeMakeGuess_err_eq hc
  · intro pid acc now e rm' hc
    exact facadePlayAgain_err_eq hc
  · intro g room
    exact startGame_unchanged g room
  · intro g room mid tid now e hc
    exact makeGuess_err_unchanged hc
  · intro g room pid acc now e hc
    exact handlePlayAgain_err_unchanged hc

/-- Witness for C10: `leaveRoom` on the initial state fails with `NotInRoom`
and leaves the registry untouched. -/
theorem claim_C10_witness :
    Reachable initRM ∧ (initRM.leaveRoom 5 0).err = some GErr.NotInRoom ∧
    (initRM.leaveRoom 5 0).rm = initRM := by
  have h := claim_C10_error_atomicity initRM Relation.ReflTransGen.refl
  exact ⟨Relation.ReflTransGen.refl, by decide,
    h.2.2.1 5 0 GErr.NotInRoom (by decide)⟩

-- ### C2: dealing is a bijection; all 24 permutations reachable

/-- The special-role pointer recorded for a card. -/
def pointerOf (c : Card) (g : GameSession) : Option PlayerId :=
  match c with
  | .Raja => g.rajaPlayer
  | .Mantri => g.mantriPlayer
  | .Chor => g.chorPlayer
  | .Sipahi => g.sipahiPlayer

/-- The shuffle as a function of the three bounded random draws. -/
def shuffleOf (t : Fin 4 × Fin 3 × Fin 2) : List Card :=
  fisherYates CARDS [t.1.val, t.2.1.val, t.2.2.val]

theorem length_eq_four {α : Type} {l : List α} (h : l.length = 4) :
    ∃ a b c d, l = [a, b, c, d] := by
  rcases l with _ | ⟨a, l⟩
  · simp at h
  rcases l with _ | ⟨b, l⟩
  · simp at h
  rcases l with _ | ⟨c, l⟩
  · simp at h
  rcases l with _ | ⟨d, l⟩
  · simp at h
  rcases l with _ | ⟨e, l⟩
  · exact ⟨a, b, c, d, rfl⟩
  · simp at h

theorem mapSet_append_fresh {α β : Type} [DecidableEq α] {l : List (α × β)} {k : α} (v : β)
    (h : k ∉ keysOf l) : mapSet l k v = l ++ [(k, v)] := by
  induction l with
  | nil => rfl
  | cons hd tl ih =>
    obtain ⟨a, b⟩ := hd
    have hka : a ≠ k := by
      intro he
      exact h (by rw [he]; exact List.mem_cons_self _ _)
    simp only [mapSet, if_neg hka, List.cons_append]
    rw [ih (fun hm => h (List.mem_cons_of_mem _ hm))]

theorem applyCardAssign_currentCards (g : GameSession) (k : PlayerId) (c : Card) :
    (applyCardAssign g k c).currentCards = mapSet g.currentCards k c := by
  cases c <;> rfl

theorem pointerOf_applyCardAssign (g : GameSession) (k : PlayerId) (c0 c : Card) :
    pointerOf c (applyCardAssign g k c0)
      = if c0 = c then some k else pointerOf c g := by
  cases c0 <;> cases c <;> simp [applyCardAssign, pointerOf]

theorem foldAssign_currentCards (pairs : List (PlayerId × Card)) (g0 : GameSession)
    (hkeys : (pairs.map Prod.fst).Nodup)
    (hdisj : ∀ k ∈ pairs.map Prod.fst, k ∉ keysOf g0.currentCards) :
    (pairs.foldl (fun acc pc => applyCardAssign acc pc.1 pc.2) g0).currentCards
      = g0.currentCards ++ pairs := by
  induction pairs generalizing g0 with
  | nil => simp
  | cons pc rest ih =>
    obtain ⟨k, c⟩ := pc
    rw [List.foldl_cons]
    have hkfresh : k ∉ keysOf g0.currentCards :=
      hdisj k (by rw [List.map_cons]; exact List.mem_cons_self _ _)
    have hcc : (applyCardAssign g0 k c).currentCards = g0.currentCards ++ [(k, c)] := by
      rw [applyCardAssign_currentCards, mapSet_append_fresh c hkfresh]
    rw [List.map_cons, List.nodup_cons] at hkeys
    rw [ih _ hkeys.2, hcc, List.append_assoc]
    · rfl
    · intro k2 hk2 hmem
      rw [hcc] at hmem
      unfold keysOf at hmem
      rw [List.map_append] at hmem
      rcases List.mem_append.mp hmem with hmem | hmem
      · exact hdisj k2 (by rw [List.map_cons]; exact List.mem_cons_of_mem _ hk2) hmem
      · simp only [List.map_cons, List.map_nil, List.mem_singleton] at hmem
        exact hkeys.1 (hmem ▸ hk2)

theorem foldAssign_pointer_notmem (pairs : List (PlayerId × Card)) (g0 : GameSession)
    (c : Card) (h : c ∉ pairs.map Prod.snd) :
    pointerOf c (pairs.foldl (fun acc pc => applyCardAssign acc pc.1 pc.2) g0)
      = pointerOf c g0 := by
  induction pairs generalizing g0 with
  | nil => rfl
  | cons pc rest ih =>
    obtain ⟨k, c0⟩ := pc
    rw [List.foldl_cons]
    rw [List.map_cons] at h
    have hc0 : c0 ≠ c := fun he => h (by rw [he]; exact List.mem_cons_self _ _)
    rw [ih _ (fun hm => h (List.mem_cons_of_mem _ hm)), pointerOf_applyCardAssign,
      if_neg hc0]

theorem foldAssign_pointer_mem (pairs : List (PlayerId × Card)) (g0 : GameSession)
    (pid : PlayerId) (c : Card) (hmem : (pid, c) ∈ pairs)
    (hsnd : (pairs.map Prod.snd).Nodup) :
    pointerOf c (pairs.foldl (fun acc pc => applyCardAssign acc pc.1 pc.2) g0)
      = some pid := by
  induction pairs generalizing g0 with
  | nil => cases hmem
  | cons pc rest ih =>
    obtain ⟨k, c0⟩ := pc
    rw [List.map_cons, List.nodup_cons] at hsnd
    rw [List.foldl_cons]
    rcases List.mem_cons.mp hmem with heq | hmem2
    · obtain ⟨rfl, rfl⟩ : k = pid ∧ c0 = c := by
        have h1 := congrArg Prod.fst heq
        have h2 := congrArg Prod.snd heq
        exact ⟨h1.symm, h2.symm⟩
      rw [foldAssign_pointer_notmem _ _ _ hsnd.1, pointerOf_applyCardAssign, if_pos rfl]
    · exact ih _ hmem2 hsnd.2

/-- **C2.** For a room with exactly four distinct players and any admissible
random draws (`j ∈ [0, i]` for `i = 3, 2, 1`), `distributeCards` produces a
card mapping whose domain is exactly the room's player-id list and whose
values are the four roles, each exactly once (a bijection); every special-role
pointer equals the id of the player holding the corresponding card; and the
map from the `4·3·2 = 24` equiprobable draw triples to shuffles is injective
and reaches every permutation of the four cards, so the deal is uniform over
all 24 role assignments. -/
theorem claim_C2_distributeCards (g : GameSession) (room : Room) (js : List Nat)
    (a b c : Nat) (now : Nat) (hjs : js = [a, b, c])
    (ha : a < 4) (hb : b < 3) (hc : c < 2)
    (hnum : room.players.length = 4) (hnd : (room.players.map Player.id).Nodup) :
    ((distributeCards g room js now).1.currentCards.map Prod.fst
        = room.players.map Player.id) ∧
    (((distributeCards g room js now).1.currentCards.map Prod.snd).Perm CARDS) ∧
    ((distributeCards g room js now).1.currentCards.length = 4) ∧
    (∀ pid card, (pid, card) ∈ (distributeCards g room js now).1.currentCards →
      pointerOf card (distributeCards g room js now).1 = some pid) ∧
    (∀ t1 t2 : Fin 4 × Fin 3 × Fin 2, shuffleOf t1 = shuffleOf t2 → t1 = t2) ∧
    (∀ l : List Card, l.Perm CARDS → ∃ t : Fin 4 × Fin 3 × Fin 2, shuffleOf t = l) := by
  have hshuffleOf : fisherYates CARDS js = shuffleOf ⟨⟨a, ha⟩, ⟨b, hb⟩, ⟨c, hc⟩⟩ := by
    rw [hjs]
    rfl
  have hperm0 : ∀ t : Fin 4 × Fin 3 × Fin 2, (shuffleOf t).Perm CARDS := by decide
  have hperm : (fisherYates CARDS js).Perm CARDS := by
    rw [hshuffleOf]
    exact hperm0 _
  have hlen : (fisherYates CARDS js).length = 4 := hperm.length_eq
  have hlenp : (room.players.map Player.id).length = 4 := by
    rw [List.length_map, hnum]
  have hzip1 : ((room.players.map Player.id).zip (fisherYates CARDS js)).map Prod.fst
      = room.players.map Player.id :=
    List.map_fst_zip _ _ (by rw [hlen, hlenp])
  have hzip2 : ((room.players.map Player.id).zip (fisherYates CARDS js)).map Prod.snd
      = fisherYates CARDS js :=
    List.map_snd_zip _ _ (by rw [hlen, hlenp])
  have hcc : (distributeCards g room js now).1.currentCards
      = (room.players.map Player.id).zip (fisherYates CARDS js) := by
    unfold distributeCards
    dsimp only
    rw [foldAssign_currentCards _ _ (by rw [hzip1]; exact hnd)
      (by intro k hk hmem; cases hmem)]
    rfl
  refine ⟨?_, ?_, ?_, ?_, by decide, ?_⟩
  · rw [hcc, hzip1]
  · rw [hcc, hzip2]
    exact hperm
  · rw [hcc]
    rw [List.length_zip, hlen, hlenp]
    exact Nat.min_self 4
  · intro pid card hmem
    have hpointer : pointerOf card (distributeCards g room js now).1 = some pid := by
      unfold distributeCards
      dsimp only
      apply foldAssign_pointer_mem
      · rw [hcc] at hmem
        exact hmem
      · rw [hzip2]
        exact hperm.symm.nodup (by decide)
    exact hpointer
  · intro l hl
    have hlen4 : l.length = 4 := hl.length_eq.trans (by decide)
    obtain ⟨c0, c1, c2, c3, rfl⟩ := length_eq_four hlen4
    have hkey : ∀ d0 d1 d2 d3 : Card,
        Card.Raja ∈ [d0, d1, d2, d3] → Card.Mantri ∈ [d0, d1, d2, d3] →
        Card.Chor ∈ [d0, d1, d2, d3] → Card.Sipahi ∈ [d0, d1, d2, d3] →
        ∃ t : Fin 4 × Fin 3 × Fin 2, shuffleOf t = [d0, d1, d2, d3] := by decide
    exact hkey c0 c1 c2 c3 (hl.mem_iff.mpr (by decide)) (hl.mem_iff.mpr (by decide))
      (hl.mem_iff.mpr (by decide)) (hl.mem_iff.mpr (by decide))

/-- A concrete four-player room for the witnesses. -/
def mkDemoPlayer (id : PlayerId) (name : String) (flag : Bool) : Player :=
  { id := id, name := name, isCreator := flag, joinedAt := 0, gamesPlayed := 0 }

/-- A concrete four-player room for the witnesses. -/
def demoRoom4 : Room :=
  { roomId := 1
    password := none
    creatorId := 1
    players := [mkDemoPlayer 1 "alice" true, mkDemoPlayer 2 "bob" false,
                mkDemoPlayer 3 "carol" false, mkDemoPlayer 4 "dave" false]
    maxPlayers := 4
    createdAt := 0
    lastActivity := 0
    state := .waiting
    game := none }

/-- Witness for C2 at a concrete room and draw triple. -/
theorem claim_C2_witness :
    ([0, 1, 0] = [(0 : Nat), 1, 0] ∧ (0 : Nat) < 4 ∧ (1 : Nat) < 3 ∧ (0 : Nat) < 2 ∧
      demoRoom4.players.length = 4 ∧ (demoRoom4.players.map Player.id).Nodup) ∧
    ((distributeCards (GameSession.init demoRoom4) demoRoom4 [0, 1, 0] 7).1.currentCards.map
        Prod.fst = demoRoom4.players.map Player.id) := by
  have h := claim_C2_distributeCards (GameSession.init demoRoom4) demoRoom4 [0, 1, 0]
    0 1 0 7 rfl (by decide) (by decide) (by decide) (by decide) (by decide)
  exact ⟨⟨rfl, by decide, by decide, by decide, by decide, by decide⟩, h.1⟩

-- ### C3: makeGuess failure conditions and success effects

theorem applyRoundScores_get (u s : List (PlayerId × Nat))
    (hnd : (keysOf u).Nodup) (k : PlayerId) :
    mapGet (applyRoundScores s u) k
      = match mapGet u k with
        | some v => some ((mapGet s k).getD 0 + v)
        | none => mapGet s k := by
  induction u generalizing s with
  | nil => rfl
  | cons kv rest ih =>
    obtain ⟨k0, v0⟩ := kv
    simp only [keysOf, List.map_cons, List.nodup_cons] at hnd
    unfold applyRoundScores
    rw [List.foldl_cons]
    have hfold : applyRoundScores (mapSet s k0 ((mapGet s k0).getD 0 + v0)) rest
        = List.foldl (fun acc pr => mapSet acc pr.1 ((mapGet acc pr.1).getD 0 + pr.2))
            (mapSet s k0 ((mapGet s k0).getD 0 + v0)) rest := rfl
    rw [← hfold, ih _ hnd.2]
    by_cases hk : k0 = k
    · subst hk
      have hrest : mapGet rest k0 = none := (mapGet_eq_none_iff _ _).mpr hnd.1
      rw [hrest]
      have hcons : mapGet ((k0, v0) :: rest) k0 = some v0 := by
        simp [mapGet]
      rw [hcons, mapGet_mapSet_self]
    · have hcons : mapGet ((k0, v0) :: rest) k = mapGet rest k := by
        simp [mapGet, hk]
      rw [hcons, mapGet_mapSet_ne _ _ _ _ hk]

theorem mapGet_calculateRoundScores (cards : List (PlayerId × Card)) (b : Bool)
    (pid : PlayerId) :
    mapGet (calculateRoundScores cards b) pid
      = (mapGet cards pid).map (fun c => cardScore c b) := by
  induction cards with
  | nil => rfl
  | cons kv rest ih =>
    obtain ⟨k, c⟩ := kv
    by_cases hk : k = pid <;> simp [calculateRoundScores, mapGet, hk] <;>
      simpa [calculateRoundScores] using ih

theorem keysOf_calculateRoundScores (cards : List (PlayerId × Card)) (b : Bool) :
    keysOf (calculateRoundScores cards b) = keysOf cards := by
  unfold calculateRoundScores keysOf
  rw [List.map_map]
  rfl

theorem scheduleNextRound_scores (g : GameSession) (room : Room) (now : Nat) :
    (scheduleNextRound g room now).1.scores = g.scores := by
  unfold scheduleNextRound endGame
  split <;> rfl

theorem scheduleNextRound_history (g : GameSession) (room : Room) (now : Nat) :
    (scheduleNextRound g room now).1.roundHistory = g.roundHistory := by
  unfold scheduleNextRound endGame
  split <;> rfl

/-- **C3.** `makeGuess(mantriId, targetId)` fails with `NotInProgress` exactly
when the session is not `playing`, with `NotMantri` exactly when (playing and)
the caller is not the current Mantri, with `InvalidTarget` exactly when the
target is not a room member, and with `SelfGuess` exactly when the Mantri
targets itself; it succeeds precisely when none of these hold, and then the
correctness flag is `targetId == chorId`, every card holder's round score is
added to the cumulative ledger, and exactly one entry — with `timedOut =
false` and the given `guessedPlayerId` — is appended to `roundHistory`. -/
theorem claim_C3_makeGuess (g : GameSession) (room : Room) (mid tid : PlayerId)
    (now : Nat) (hkeys : (keysOf g.currentCards).Nodup) :
    ((makeGuess g room mid tid now).1 = none ↔
      g.state = GState.playing ∧ some mid = g.mantriPlayer ∧
      room.hasPlayer tid = true ∧ mid ≠ tid) ∧
    ((makeGuess g room mid tid now).1 = some GErr.NotInProgress ↔
      g.state ≠ GState.playing) ∧
    ((makeGuess g room mid tid now).1 = some GErr.NotMantri ↔
      g.state = GState.playing ∧ some mid ≠ g.mantriPlayer) ∧
    ((makeGuess g room mid tid now).1 = some GErr.InvalidTarget ↔
      g.state = GState.playing ∧ some mid = g.mantriPlayer ∧
      room.hasPlayer tid = false) ∧
    ((makeGuess g room mid tid now).1 = some GErr.SelfGuess ↔
      g.state = GState.playing ∧ some mid = g.mantriPlayer ∧
      room.hasPlayer tid = true ∧ mid = tid) ∧
    ((makeGuess g room mid tid now).1 = none →
      (∃ rr : RoundResult,
        (makeGuess g room mid tid now).2.1.roundHistory = g.roundHistory ++ [rr] ∧
        rr.timedOut = false ∧ rr.guessedPlayerId = some tid ∧ rr.mantriId = some mid ∧
        (rr.isCorrect = true ↔ g.chorPlayer = some tid)) ∧
      (∀ pid card, (pid, card) ∈ g.currentCards →
        mapGet (makeGuess g room mid tid now).2.1.scores pid
          = some ((mapGet g.scores pid).getD 0
              + cardScore card (decide (g.chorPlayer = some tid))))) := by
  by_cases h1 : g.state = GState.playing
  · by_cases h2 : some mid = g.mantriPlayer
    · by_cases h3 : room.hasPlayer tid = true
      · by_cases h4 : mid = tid
        · -- SelfGuess
          subst h4
          have hres : makeGuess g room mid mid now = (some GErr.SelfGuess, g, room) := by
            unfold makeGuess
            rw [if_neg (not_not_intro h1), if_neg (not_not_intro h2),
              if_neg (not_not_intro h3), if_pos rfl]
          rw [hres]
          refine ⟨?_, ?_, ?_, ?_, ?_, ?_⟩ <;> simp [h1, h2, h3]
        · -- success
          have hres : makeGuess g room mid tid now
              = (none,
                 scheduleNextRound
                   { g with
                      scores := applyRoundScores g.scores
                        (calculateRoundScores g.currentCards
                          (decide (g.chorPlayer = some tid)))
                      roundHistory := g.roundHistory ++
                        [{ round := g.currentRound
                           mantriId := some mid
                           guessedPlayerId := some tid
                           actualChorId := g.chorPlayer
                           isCorrect := decide (g.chorPlayer = some tid)
                           timedOut := false
                           scores := calculateRoundScores g.currentCards
                             (decide (g.chorPlayer = some tid))
                           cards := g.currentCards
                           timestamp := now
                           roundDuration := now - g.roundStartTime.getD 0 }] }
                   (room.updateActivity now) now |>.1,
                 scheduleNextRound
                   { g with
                      scores := applyRoundScores g.scores
                        (calculateRoundScores g.currentCards
                          (decide (g.chorPlayer = some tid)))
                      roundHistory := g.roundHistory ++
                        [{ round := g.currentRound
                           mantriId := some mid
                           guessedPlayerId := some tid
                           actualChorId := g.chorPlayer
                           isCorrect := decide (g.chorPlayer = some tid)
                           timedOut := false
                           scores := calculateRoundScores g.currentCards
                             (decide (g.chorPlayer = some tid))
                           cards := g.currentCards
                           timestamp := now
                           roundDuration := now - g.roundStartTime.getD 0 }] }
                   (room.updateActivity now) now |>.2) := by
            unfold makeGuess
            rw [if_neg (not_not_intro h1), if_neg (not_not_intro h2),
              if_neg (not_not_intro h3), if_neg h4]
          rw [hres]
          refine ⟨?_, ?_, ?_, ?_, ?_, ?_⟩
          · simp [h1, h2, h3, h4]
          · simp [h1]
          · simp [h2]
          · simp [h3]
          · simp [h4]
          · intro _
            constructor
            · refine ⟨{ round := g.currentRound
                        mantriId := some mid
                        guessedPlayerId := some tid
                        actualChorId := g.chorPlayer
                        isCorrect := decide (g.chorPlayer = some tid)
                        timedOut := false
                        scores := calculateRoundScores g.currentCards
                          (decide (g.chorPlayer = some tid))
                        cards := g.currentCards
                        timestamp := now
                        roundDuration := now - g.roundStartTime.getD 0 }, ?_, rfl, rfl, rfl, ?_⟩
              · rw [scheduleNextRound_history]
              · simp
            · intro pid card hcard
              rw [scheduleNextRound_scores]
              dsimp only
              rw [applyRoundScores_get _ _ (by rw [keysOf_calculateRoundScores]; exact hkeys),
                mapGet_calculateRoundScores,
                mapGet_eq_some_of_mem hkeys hcard]
              rfl
      · -- InvalidTarget
        have h3' : ¬ room.hasPlayer tid = true := h3
        have hres : makeGuess g room mid tid now = (some GErr.InvalidTarget, g, room) := by
          unfold makeGuess
          rw [if_neg (not_not_intro h1), if_neg (not_not_intro h2), if_pos h3']
        rw [hres]
        have h3f : room.hasPlayer tid = false := by
          rcases hb : room.hasPlayer tid with _ | _
          · rfl
          · exact absurd hb h3
        refine ⟨?_, ?_, ?_, ?_, ?_, ?_⟩ <;> simp [h1, h2, h3f]
    · -- NotMantri
      have hres : makeGuess g room mid tid now = (some GErr.NotMantri, g, room) := by
        unfold makeGuess
        rw [if_neg (not_not_intro h1), if_pos h2]
      rw [hres]
      refine ⟨?_, ?_, ?_, ?_, ?_, ?_⟩ <;> simp [h1, h2]
  · -- NotInProgress
    have hres : makeGuess g room mid tid now = (some GErr.NotInProgress, g, room) := by
      unfold makeGuess
      rw [if_pos h1]
    rw [hres]
    refine ⟨?_, ?_, ?_, ?_, ?_, ?_⟩ <;> simp [h1]

/-- A concrete playing session over `demoRoom4` for the witnesses: player 2 is
the Mantri, player 3 the Chor. -/
def demoPlayingSession : GameSession :=
  { state := GState.playing
    currentRound := 1
    maxRounds := 5
    currentCards := [(1, Card.Raja), (2, Card.Mantri), (3, Card.Chor), (4, Card.Sipahi)]
    scores := [(1, 0), (2, 0), (3, 0), (4, 0)]
    roundHistory := []
    rajaPlayer := some 1
    mantriPlayer := some 2
    chorPlayer := some 3
    sipahiPlayer := some 4
    playAgainResponses := []
    gameStartTime := some 100
    gameEndTime := none
    roundStartTime := some 100
    }

/-- Witness for C3: a correct guess by the Mantri in a concrete session. -/
theorem claim_C3_witness :
    (keysOf demoPlayingSession.currentCards).Nodup ∧
    ((makeGuess demoPlayingSession demoRoom4 2 3 130).1 = none ↔
      demoPlayingSession.state = GState.playing ∧
      some 2 = demoPlayingSession.mantriPlayer ∧
      demoRoom4.hasPlayer 3 = true ∧ (2 : PlayerId) ≠ 3) := by
  have h := claim_C3_makeGuess demoPlayingSession demoRoom4 2 3 130 (by decide)
  exact ⟨by decide, h.1⟩

-- ### C4: startGame (corrected)

/-- A finished concrete session over `demoRoom4`. -/
def demoFinishedSession : GameSession :=
  { demoPlayingSession with state := GState.finished, gameEndTime := some 200 }

/-- **C4 counterexample.**  The claim says a successful `startGame` moves the
session out of `waiting` into a `countingDown` state, and that `startGame`
fails with `AlreadyPlaying` whenever the session is not `waiting`.  Neither
holds of the code: `GameManager.state` has no `countingDown` value and a
successful `startGame` leaves `state` untouched (still `waiting`), and from
the `finished` state a four-player `startGame` succeeds rather than failing. -/
theorem claim_C4_counterexample :
    ((startGame (GameSession.init demoRoom4) demoRoom4).1 = none ∧
     (GameSession.init demoRoom4).state = GState.waiting ∧
     (startGame (GameSession.init demoRoom4) demoRoom4).2.state = GState.waiting) ∧
    (demoFinishedSession.state ≠ GState.waiting ∧
     (startGame demoFinishedSession demoRoom4).1 = none) := by
  decide

theorem applyCardAssign_state (g : GameSession) (k : PlayerId) (c : Card) :
    (applyCardAssign g k c).state = g.state := by
  cases c <;> rfl

theorem applyCardAssign_round (g : GameSession) (k : PlayerId) (c : Card) :
    (applyCardAssign g k c).currentRound = g.currentRound := by
  cases c <;> rfl

theorem foldAssign_state (pairs : List (PlayerId × Card)) (g0 : GameSession) :
    (pairs.foldl (fun acc pc => applyCardAssign acc pc.1 pc.2) g0).state = g0.state := by
  induction pairs generalizing g0 with
  | nil => rfl
  | cons pc rest ih =>
    rw [List.foldl_cons, ih, applyCardAssign_state]

theorem foldAssign_round (pairs : List (PlayerId × Card)) (g0 : GameSession) :
    (pairs.foldl (fun acc pc => applyCardAssign acc pc.1 pc.2) g0).currentRound
      = g0.currentRound := by
  induction pairs generalizing g0 with
  | nil => rfl
  | cons pc rest ih =>
    rw [List.foldl_cons, ih, applyCardAssign_round]

/-- **C4 (amended).** `startGame` fails with `AlreadyPlaying` exactly when the
session state is `playing` (a `finished` session restarts), and with
`WrongPlayerCount` exactly when it is not `playing` and the room does not have
exactly 4 players; a successful call leaves the session entirely unchanged
(the code has no `countingDown` state — the countdown lives in a timer), and
the deal — session and room to `playing`, `currentRound := 1`, cards
distributed — happens only in `actuallyStartGame`, the countdown's firing. -/
theorem claim_C4_startGame_amended (g : GameSession) (room : Room) (js : List Nat)
    (now : Nat) :
    ((startGame g room).1 = some GErr.AlreadyPlaying ↔ g.state = GState.playing) ∧
    ((startGame g room).1 = some GErr.WrongPlayerCount ↔
      g.state ≠ GState.playing ∧ room.players.length ≠ 4) ∧
    ((startGame g room).1 = none ↔
      g.state ≠ GState.playing ∧ room.players.length = 4) ∧
    (startGame g room).2 = g ∧
    ((actuallyStartGame g room js now).1.state = GState.playing ∧
     (actuallyStartGame g room js now).1.currentRound = 1 ∧
     (actuallyStartGame g room js now).2.state = RState.playing) := by
  have heffect : (actuallyStartGame g room js now).1.state = GState.playing ∧
      (actuallyStartGame g room js now).1.currentRound = 1 ∧
      (actuallyStartGame g room js now).2.state = RState.playing := by
    refine ⟨?_, ?_, rfl⟩
    · unfold actuallyStartGame distributeCards
      dsimp only
      rw [foldAssign_state]
    · unfold actuallyStartGame distributeCards
      dsimp only
      rw [foldAssign_round]
  unfold startGame
  by_cases h1 : g.state = GState.playing
  · rw [if_pos h1]
    exact ⟨by simp [h1], by simp [h1], by simp [h1], rfl, heffect⟩
  · rw [if_neg h1]
    by_cases h2 : room.players.length = 4
    · rw [if_neg (not_not_intro h2)]
      exact ⟨by simp [h1], by simp [h2], by simp [h1, h2], rfl, heffect⟩
    · rw [if_pos h2]
      exact ⟨by simp [h1], by simp [h1, h2], by simp [h2], rfl, heffect⟩

-- ### C5: leaveRoom

/-- **C5.** `leaveRoom(playerId)` fails with `NotInRoom` (leaving the registry
untouched) when the player is not registered to any room.  On success the
player is removed from the room's ordered player list; if the removed player
was the creator and players remain, the `isCreator` flag and `creatorId` move
to the player at index 0 of the remaining list; if the room becomes empty it
is deleted from both registry maps. -/
theorem claim_C5_leaveRoom (rm : RoomManager) (pid : PlayerId) (now : Nat) :
    (mapGet rm.playerToRoom pid = none →
      (rm.leaveRoom pid now).err = some GErr.NotInRoom ∧
      (rm.leaveRoom pid now).rm = rm) ∧
    (∀ rid room, mapGet rm.playerToRoom pid = some rid →
      mapGet rm.rooms rid = some room →
      room.hasPlayer pid = true → RoomWF room →
      (keysOf rm.rooms).Nodup → (keysOf rm.playerToRoom).Nodup →
      (rm.leaveRoom pid now).err = none ∧
      (room.players.eraseP (fun q => q.id = pid) = [] →
        (rm.leaveRoom pid now).roomDeleted = true ∧
        mapGet (rm.leaveRoom pid now).rm.rooms rid = none ∧
        mapGet (rm.leaveRoom pid now).rm.playerToRoom pid = none) ∧
      (room.players.eraseP (fun q => q.id = pid) ≠ [] →
        mapGet (rm.leaveRoom pid now).rm.playerToRoom pid = none ∧
        ∃ room2, mapGet (rm.leaveRoom pid now).rm.rooms rid = some room2 ∧
          room2.players.map Player.id
            = (room.players.eraseP (fun q => q.id = pid)).map Player.id ∧
          (room.creatorId = pid →
            ∃ p0 rest, room.players.eraseP (fun q => q.id = pid) = p0 :: rest ∧
              room2.creatorId = p0.id ∧
              room2.players = { p0 with isCreator := true } :: rest) ∧
          (room.creatorId ≠ pid →
            room2.players = room.players.eraseP (fun q => q.id = pid) ∧
            room2.creatorId = room.creatorId))) := by
  constructor
  · intro hnone
    unfold RoomManager.leaveRoom
    rw [hnone]
    exact ⟨rfl, rfl⟩
  · intro rid room hp hr hhas hwf hndr hndp
    obtain ⟨q, hq⟩ := hasPlayer_getPlayer hhas
    obtain ⟨hnd, hlen, hne, hcount, hflag⟩ := hwf
    have hpidmem : pid ∈ room.players.map Player.id := (hasPlayer_iff _ _).mp hhas
    have hres : rm.leaveRoom pid now
        = (let room1 : Room := { room with
            players := room.players.eraseP (fun q => q.id = pid), lastActivity := now }
           let rm1 := { rm with playerToRoom := mapDel rm.playerToRoom pid }
           let room2 := leaveCreatorFix room1 (room.isCreator pid) now
           if room2.isEmpty then
             ⟨none, { rm1 with rooms := mapDel rm1.rooms rid }, some rid, true,
              room.isCreator pid⟩
           else
             ⟨none, { rm1 with rooms := mapSet rm1.rooms rid room2 }, some rid, false,
              room.isCreator pid⟩) := by
      unfold RoomManager.leaveRoom Room.removePlayer
      rw [hp]
      dsimp only
      rw [hr]
      dsimp only
      rw [hq]
    rw [hres]
    dsimp only
    set room1 : Room := { room with
      players := room.players.eraseP (fun q => q.id = pid), lastActivity := now }
      with hroom1
    have hids1 : room1.players.map Player.id = (room.players.map Player.id).erase pid :=
      map_id_eraseP _ _
    have hnd1 : (room1.players.map Player.id).Nodup := by
      rw [hids1]
      exact hnd.erase pid
    have hlen1 : room1.players.length ≤ room1.maxPlayers := by
      have h1 := congrArg List.length hids1
      simp only [List.length_map] at h1
      have h2 : ((room.players.map Player.id).erase pid).length
          ≤ (room.players.map Player.id).length := (List.erase_sublist _ _).length_le
      simp only [List.length_map] at h2
      calc room1.players.length = _ := h1
        _ ≤ room.players.length := h2
        _ ≤ room.maxPlayers := hlen
    rcases hwc : room.isCreator pid with _ | _
    · -- non-creator leaves
      have hcidne : room.creatorId ≠ pid := by
        unfold Room.isCreator at hwc
        simpa using hwc
      rw [leaveCreatorFix_false_eq]
      by_cases her : room.players.eraseP (fun q => q.id = pid) = []
      · have hdel : room1.isEmpty = true := by
          unfold Room.isEmpty
          rw [hroom1]
          dsimp only
          rw [her]
          rfl
        rw [if_pos hdel]
        refine ⟨rfl, fun _ => ⟨rfl, ?_, ?_⟩, fun hcon => absurd her hcon⟩
        · exact mapGet_mapDel_self _ _ hndr
        · exact mapGet_mapDel_self _ _ hndp
      · have hdel : room1.isEmpty = false := by
          rw [isEmpty_false_iff, hroom1]
          exact her
        rw [if_neg (by simp [hdel])]
        refine ⟨rfl, fun hcon => absurd hcon her, fun _ => ⟨?_, room1, ?_, rfl, ?_, ?_⟩⟩
        · exact mapGet_mapDel_self _ _ hndp
        · exact mapGet_mapSet_self _ _ _
        · intro hcid
          exact absurd hcid.symm (fun he => hcidne he.symm)
        · intro _
          exact ⟨rfl, rfl⟩
    · -- the creator leaves
      have hcid : room.creatorId = pid := by
        unfold Room.isCreator at hwc
        simpa using hwc
      have hflags1 : ∀ p2 ∈ room1.players, p2.isCreator = false := by
        intro p2 hp2
        rcases hb : p2.isCreator with _ | _
        · rfl
        · exfalso
          have hpid2 : p2.id = pid := by
            rw [← hcid]
            exact hflag p2 ((List.eraseP_sublist _).mem hp2) hb
          have hmm : p2.id ∈ room1.players.map Player.id :=
            List.mem_map.mpr ⟨p2, hp2, rfl⟩
          rw [hids1, hnd.mem_erase_iff] at hmm
          exact hmm.1 hpid2
      by_cases her : room.players.eraseP (fun q => q.id = pid) = []
      · have hdel : room1.isEmpty = true := by
          unfold Room.isEmpty
          rw [hroom1]
          dsimp only
          rw [her]
          rfl
        have hfix : leaveCreatorFix room1 true now = room1 := by
          unfold leaveCreatorFix
          rw [if_neg (by rw [hdel]; simp)]
        rw [hfix, if_pos hdel]
        refine ⟨rfl, fun _ => ⟨rfl, ?_, ?_⟩, fun hcon => absurd her hcon⟩
        · exact mapGet_mapDel_self _ _ hndr
        · exact mapGet_mapDel_self _ _ hndp
      · have hne1 : room1.players ≠ [] := by
          rw [hroom1]
          exact her
        obtain ⟨hwf2, hids2, _, p0, rest, hl1, hcid2, hshape2⟩ :=
          leaveCreatorFix_wf_true hnd1 hlen1 hne1 hflags1
        have hne2 : (leaveCreatorFix room1 true now).isEmpty = false := by
          rw [isEmpty_false_iff, hshape2]
          simp
        rw [if_neg (by simp [hne2])]
        refine ⟨rfl, fun hcon => absurd hcon her, fun _ => ⟨?_,
          leaveCreatorFix room1 true now, ?_, ?_, ?_, ?_⟩⟩
        · exact mapGet_mapDel_self _ _ hndp
        · exact mapGet_mapSet_self _ _ _
        · rw [hids2, hroom1]
        · intro _
          exact ⟨p0, rest, hl1, hcid2, hshape2⟩
        · intro hcon
          exact absurd hcid hcon

/-- A concrete two-player room and registry for the C5 witness. -/
def demoRoom2 : Room :=
  { roomId := 5
    password := none
    creatorId := 1
    players := [mkDemoPlayer 1 "alice" true, mkDemoPlayer 2 "bob" false]
    maxPlayers := 4
    createdAt := 0
    lastActivity := 0
    state := .waiting
    game := none }

/-- A concrete two-player room and registry for the C5 witness. -/
def demoRM2 : RoomManager :=
  { rooms := [(5, demoRoom2)], playerToRoom := [(1, 5), (2, 5)], maxRooms := 100 }

/-- Witness for C5: the creator of a concrete two-player room leaves; the call
succeeds and the remaining player inherits the room. -/
theorem claim_C5_witness :
    (mapGet demoRM2.playerToRoom 1 = some 5 ∧ mapGet demoRM2.rooms 5 = some demoRoom2 ∧
     demoRoom2.hasPlayer 1 = true ∧ RoomWF demoRoom2 ∧
     (keysOf demoRM2.rooms).Nodup ∧ (keysOf demoRM2.playerToRoom).Nodup) ∧
    (demoRM2.leaveRoom 1 0).err = none ∧
    mapGet (demoRM2.leaveRoom 1 0).rm.playerToRoom 1 = none := by
  have h := (claim_C5_leaveRoom demoRM2 1 0).2 5 demoRoom2 (by decide) (by decide)
    (by decide) (by unfold RoomWF; decide) (by decide) (by decide)
  refine ⟨⟨by decide, by decide, by decide, by unfold RoomWF; decide, by decide,
    by decide⟩, h.1, ?_⟩
  exact (h.2.2 (by decide)).1

-- ### C9: resetGame idempotence

theorem initializeScores_map_id {l1 l2 : List Player}
    (h : l1.map Player.id = l2.map Player.id) (s : List (PlayerId × Nat)) :
    initializeScores l1 s = initializeScores l2 s := by
  induction l1 generalizing l2 s with
  | nil =>
    have : l2 = [] := by
      cases l2 with
      | nil => rfl
      | cons q qs => cases h
    rw [this]
  | cons p ps ih =>
    cases l2 with
    | nil => cases h
    | cons q qs =>
      simp only [List.map_cons, List.cons.injEq] at h
      unfold initializeScores
      rw [List.foldl_cons, List.foldl_cons, h.1]
      exact ih h.2 _

theorem map_id_gamesPlayed (l : List Player) :
    (l.map (fun p => { p with gamesPlayed := p.gamesPlayed + 1 })).map Player.id
      = l.map Player.id := by
  induction l with
  | nil => rfl
  | cons p ps ih => simp [ih]

theorem initializeScores_get (players : List Player) (s : List (PlayerId × Nat))
    (pid : PlayerId) :
    mapGet (initializeScores players s) pid
      = if pid ∈ players.map Player.id then some 0 else mapGet s pid := by
  induction players generalizing s with
  | nil => simp [initializeScores]
  | cons q qs ih =>
    unfold initializeScores
    rw [List.foldl_cons]
    have hfold : List.foldl (fun acc p => mapSet acc p.id 0) (mapSet s q.id 0) qs
        = initializeScores qs (mapSet s q.id 0) := rfl
    rw [hfold, ih, List.map_cons]
    by_cases hmem : pid ∈ qs.map Player.id
    · rw [if_pos hmem, if_pos (List.mem_cons_of_mem _ hmem)]
    · rw [if_neg hmem]
      by_cases hq : pid = q.id
      · rw [if_pos (by rw [hq]; exact List.mem_cons_self _ _), hq, mapGet_mapSet_self]
      · rw [if_neg (fun hc => ?_), mapGet_mapSet_ne _ _ _ _ (fun he => hq he.symm)]
        rcases List.mem_cons.mp hc with hc2 | hc2
        · exact hq hc2
        · exact hmem hc2

-- ### C8: getResults

theorem insertRanked_perm (x : Player × Nat) (l : List (Player × Nat)) :
    (insertRanked x l).Perm (x :: l) := by
  induction l with
  | nil => exact List.Perm.refl _
  | cons y ys ih =>
    unfold insertRanked
    by_cases h : x.2 ≥ y.2
    · rw [if_pos h]
    · rw [if_neg h]
      exact (List.Perm.cons y ih).trans (List.Perm.swap x y ys)

theorem sortRankings_perm (l : List (Player × Nat)) : (sortRankings l).Perm l := by
  induction l with
  | nil => exact List.Perm.refl _
  | cons x xs ih =>
    exact (insertRanked_perm x (sortRankings xs)).trans (List.Perm.cons x ih)

theorem sorted_insertRanked {x : Player × Nat} {l : List (Player × Nat)}
    (h : l.Sorted (fun a b => b.2 ≤ a.2)) :
    (insertRanked x l).Sorted (fun a b => b.2 ≤ a.2) := by
  induction l with
  | nil => simp [insertRanked]
  | cons y ys ih =>
    rw [List.sorted_cons] at h
    unfold insertRanked
    by_cases hxy : x.2 ≥ y.2
    · rw [if_pos hxy, List.sorted_cons]
      refine ⟨?_, List.sorted_cons.mpr h⟩
      intro b hb
      rcases List.mem_cons.mp hb with hb2 | hb2
      · rw [hb2]; exact hxy
      · have := h.1 b hb2
        omega
    · rw [if_neg hxy, List.sorted_cons]
      refine ⟨?_, ih h.2⟩
      intro b hb
      rcases List.mem_cons.mp ((insertRanked_perm x ys).mem_iff.mp hb) with hb2 | hb2
      · rw [hb2]; omega
      · exact h.1 b hb2

theorem sorted_sortRankings (l : List (Player × Nat)) :
    (sortRankings l).Sorted (fun a b => b.2 ≤ a.2) := by
  induction l with
  | nil => simp [sortRankings]
  | cons x xs ih => exact sorted_insertRanked ih

theorem filter_insertRanked (x : Player × Nat) (l : List (Player × Nat)) (s : Nat) :
    (insertRanked x l).filter (fun e => e.2 = s)
      = if x.2 = s then x :: l.filter (fun e => e.2 = s)
        else l.filter (fun e => e.2 = s) := by
  induction l with
  | nil =>
    by_cases hx : x.2 = s
    · simp [insertRanked, hx]
    · simp [insertRanked, hx]
  | cons y ys ih =>
    unfold insertRanked
    by_cases hxy : x.2 ≥ y.2
    · rw [if_pos hxy]
      by_cases hx : x.2 = s
      · simp [List.filter_cons, hx]
      · simp [List.filter_cons, hx]
    · rw [if_neg hxy]
      by_cases hx : x.2 = s
      · have hy : ¬ (y.2 = s) := by omega
        simp [List.filter_cons, hy, hx, ih]
      · by_cases hy : y.2 = s
        · simp [List.filter_cons, hy, hx, ih]
        · simp [List.filter_cons, hy, hx, ih]

theorem filter_sortRankings (l : List (Player × Nat)) (s : Nat) :
    (sortRankings l).filter (fun e => e.2 = s) = l.filter (fun e => e.2 = s) := by
  induction l with
  | nil => rfl
  | cons x xs ih =>
    have h1 : sortRankings (x :: xs) = insertRanked x (sortRankings xs) := rfl
    rw [h1, filter_insertRanked]
    by_cases hx : x.2 = s
    · rw [if_pos hx, ih, List.filter_cons, if_pos (by simp [hx])]
    · rw [if_neg hx, ih, List.filter_cons, if_neg (by simp [hx])]

theorem jsRound_nearest (n den : Nat) (hden : 0 < den) :
    2 * den * jsRound n den ≤ 2 * n + den ∧
    2 * n ≤ 2 * den * jsRound n den + den := by
  unfold jsRound
  have h1 := Nat.div_add_mod (2 * n + den) (2 * den)
  have h2 := Nat.mod_lt (2 * n + den) (show 0 < 2 * den by omega)
  omega

/-- **C8.** `getResults` ranks the room's players by cumulative score
descending with a stable tie-break by original join order: the rankings are a
permutation of the player-order entry list, sorted by descending score, and
restricting to any fixed score value preserves the original player-list
order.  The winner is the head (rank 0) of the rankings.  The game duration
is `gameEndTime - gameStartTime` when an end time is recorded and
`now - gameStartTime` otherwise.  `averageScorePerRound` is the total of all
players' scores divided by (player count × rounds played) rounded to the
nearest integer (half away from zero), witnessed by the two-sided bound. -/
theorem claim_C8_getResults (g : GameSession) (room : Room) (now : Nat) :
    (getResults g room now).rankings.Perm
        (room.players.map (fun p => (p, (mapGet g.scores p.id).getD 0))) ∧
    (getResults g room now).rankings.Sorted (fun a b => b.2 ≤ a.2) ∧
    (∀ s : Nat, (getResults g room now).rankings.filter (fun e => e.2 = s)
        = (room.players.map (fun p => (p, (mapGet g.scores p.id).getD 0))).filter
            (fun e => e.2 = s)) ∧
    (getResults g room now).winner = (getResults g room now).rankings.head? ∧
    (∀ e, g.gameEndTime = some e →
      (getResults g room now).gameDuration = e - g.gameStartTime.getD 0) ∧
    (g.gameEndTime = none →
      (getResults g room now).gameDuration = now - g.gameStartTime.getD 0) ∧
    (getResults g room now).totalScore
      = ((room.players.map (fun p => (p, (mapGet g.scores p.id).getD 0))).map
          Prod.snd).sum ∧
    (getResults g room now).averageScorePerRound
      = jsRound (getResults g room now).totalScore
          (room.players.length * g.currentRound) ∧
    (0 < room.players.length * g.currentRound →
      2 * (room.players.length * g.currentRound)
          * (getResults g room now).averageScorePerRound
        ≤ 2 * (getResults g room now).totalScore
            + room.players.length * g.currentRound ∧
      2 * (getResults g room now).totalScore
        ≤ 2 * (room.players.length * g.currentRound)
              * (getResults g room now).averageScorePerRound
            + room.players.length * g.currentRound) := by
  unfold getResults
  dsimp only
  have hlen : (sortRankings
      (room.players.map (fun p => (p, (mapGet g.scores p.id).getD 0)))).length
      = room.players.length := by
    rw [(sortRankings_perm _).length_eq, List.length_map]
  refine ⟨sortRankings_perm _, sorted_sortRankings _,
    fun s => filter_sortRankings _ s, rfl, ?_, ?_, ?_, ?_, ?_⟩
  · intro e he
    rw [he]
  · intro he
    rw [he]
  · exact ((sortRankings_perm _).map Prod.snd).sum_eq
  · rw [hlen]
  · intro hpos
    rw [hlen]
    exact jsRound_nearest _ _ hpos

/-- Witness for C8 at a concrete finished game. -/
theorem claim_C8_witness :
    (getResults demoFinishedSession demoRoom4 300).winner
        = (getResults demoFinishedSession demoRoom4 300).rankings.head? ∧
    (getResults demoFinishedSession demoRoom4 300).gameDuration
        = 200 - demoFinishedSession.gameStartTime.getD 0 ∧
    0 < demoRoom4.players.length * demoFinishedSession.currentRound ∧
    2 * (getResults demoFinishedSession demoRoom4 300).totalScore
      ≤ 2 * (demoRoom4.players.length * demoFinishedSession.currentRound)
            * (getResults demoFinishedSession demoRoom4 300).averageScorePerRound
          + demoRoom4.players.length * demoFinishedSession.currentRound := by
  have h := claim_C8_getResults demoFinishedSession demoRoom4 300
  exact ⟨h.2.2.2.1, h.2.2.2.2.1 200 rfl, by decide,
    (h.2.2.2.2.2.2.2.2 (by decide)).2⟩

/-- **C9.** `resetGame` is idempotent on the session: applying it twice in a
row yields exactly the same session value as applying it once — a zeroed
state in which every player's cumulative score is 0, `roundHistory` and
`playAgainResponses` are empty, the card mapping and all four special-role
pointers are cleared, `currentRound = 0`, and both the session state and the
room state are `waiting`. -/
theorem claim_C9_resetGame_idempotent (g : GameSession) (room : Room) (n1 n2 : Nat) :
    (resetGame (resetGame g room n1).1 (resetGame g room n1).2 n2).1
      = (resetGame g room n1).1 ∧
    (resetGame g room n1).1.state = GState.waiting ∧
    (resetGame g room n1).1.currentRound = 0 ∧
    (resetGame g room n1).1.currentCards = [] ∧
    (resetGame g room n1).1.roundHistory = [] ∧
    (resetGame g room n1).1.playAgainResponses = [] ∧
    (resetGame g room n1).1.rajaPlayer = none ∧
    (resetGame g room n1).1.mantriPlayer = none ∧
    (resetGame g room n1).1.chorPlayer = none ∧
    (resetGame g room n1).1.sipahiPlayer = none ∧
    (∀ p ∈ room.players, mapGet (resetGame g room n1).1.scores p.id = some 0) ∧
    (resetGame g room n1).2.state = RState.waiting ∧
    (resetGame (resetGame g room n1).1 (resetGame g room n1).2 n2).2.state
      = RState.waiting := by
  refine ⟨?_, rfl, rfl, rfl, rfl, rfl, rfl, rfl, rfl, rfl, ?_, rfl, rfl⟩
  · unfold resetGame
    dsimp only [Room.updateActivity]
    rw [initializeScores_map_id (map_id_gamesPlayed room.players)]
  · intro p hp
    unfold resetGame
    dsimp only
    rw [initializeScores_get, if_pos (List.mem_map.mpr ⟨p, hp, rfl⟩)]

/-- Witness for C9 at a concrete session. -/
theorem claim_C9_witness :
    (resetGame (resetGame demoPlayingSession demoRoom4 50).1
        (resetGame demoPlayingSession demoRoom4 50).2 60).1
      = (resetGame demoPlayingSession demoRoom4 50).1 ∧
    (∀ p ∈ demoRoom4.players,
      mapGet (resetGame demoPlayingSession demoRoom4 50).1.scores p.id = some 0) := by
  have h := claim_C9_resetGame_idempotent demoPlayingSession demoRoom4 50 60
  exact ⟨h.1, h.2.2.2.2.2.2.2.2.2.2.1⟩

end RMCS
